import Mathlib

/-! # Merge engine of the docker-compose plugin

A shallow embedding of `src/docker-compose-file.go` (the document model), of the merge
functions and the pipeline of `src/action-merge.go` and of `Execute` of `src/main.go`,
followed by theorems about them.

Modelling conventions.

* A Go `map[string]V` is a reference that may be `nil`.  Its contents are an association
  list with pairwise distinct keys (`StrMap V`); the order of the list stands for the order
  in which a `range` loop happens to visit the map, so a statement proved for every list is
  proved for every iteration order.
* Maps that the program only ever reads are carried by value: `GoMap V` is `none` for the
  `nil` map and `some m` otherwise.
* The `Environment` and `Labels` maps of a `Service` are written in place by
  `mergeServices`.  They are therefore kept in an explicit `Heap` and a service holds a
  reference (`MapRef`) to them; copying a service copies the reference, as in Go.
* Slices are only measured (`len`) and appended to, and `append` never changes the elements
  that a slice already shows; they are lists, and the `nil` slice and the empty slice are
  both `[]`.
* The struct pointers inside a document (`*BuildConfig`, `*DeployConfig`, ...) are
  `Option T`; the merge functions only test them against `nil` and copy them.  The one
  write through such a pointer, in `CheckBuildContext`, is made on a service of a freshly
  loaded document and is modelled by returning the service as the call leaves it.
* `*DockerCompose` arguments and results are `Option DockerCompose`: a document is never
  written through its pointer, so returning the pointer it was given is returning the
  document it was given.
* A `float64` is carried as its bit pattern and a `time.Duration` as an integer; the
  program does no arithmetic on either.
-/

namespace ComposeMerge

/-! ## Go values -/

/-- Contents of a non-nil Go `map[string]V`: distinct keys, in iteration order. -/
abbrev StrMap (V : Type) : Type := AList (fun _ : String => V)

/-- A Go `map[string]V` carried by value; `none` is the `nil` map. -/
abbrev GoMap (V : Type) : Type := Option (StrMap V)

/-- The entries a `range` loop over the map visits (none for a `nil` map). -/
def GoMap.entries {V : Type} (m : GoMap V) : List (Sigma (fun _ : String => V)) :=
  match m with
  | none => []
  | some s => s.entries

/-- Go `v, ok := m[k]`: `none` when the key is missing or the map is `nil`. -/
def GoMap.lookup {V : Type} (k : String) (m : GoMap V) : Option V :=
  match m with
  | none => none
  | some s => s.lookup k

/-- Go `m[k] = v` on a map carried by value.  A write to a `nil` map panics in Go; the
program only writes to a map in which it has just found the key. -/
def GoMap.store {V : Type} (m : GoMap V) (k : String) (v : V) : GoMap V :=
  match m with
  | none => none
  | some s => some (s.insert k v)

/-- A Go `interface{}` value as produced by decoding: `nil` or a scalar, sequence or mapping. -/
inductive AnyValue where
  | nil
  | bool (b : Bool)
  | int (i : Int)
  | float (bits : Nat)
  | str (s : String)
  | seq (xs : List AnyValue)
  | map (kvs : List (String × AnyValue))

/-- Go `v != nil` for an `interface{}`. -/
def AnyValue.isNil : AnyValue → Bool
  | .nil => true
  | _ => false

/-- Reference to a heap-allocated `map[string]string`; `none` is the `nil` map. -/
abbrev MapRef : Type := Option Nat

/-- The store of the `map[string]string` values reachable from services. -/
structure Heap where
  next : Nat
  cells : Nat → StrMap String

/-- Contents of the map behind a reference; a `nil` map reads as empty. -/
def Heap.deref (h : Heap) (r : MapRef) : StrMap String :=
  match r with
  | none => ∅
  | some p => h.cells p

/-- Go `make(map[string]string)`: a fresh empty map. -/
def Heap.alloc (h : Heap) : Nat × Heap :=
  (h.next, { next := h.next + 1, cells := Function.update h.cells h.next ∅ })

/-- Go `m[k] = v` on the map at address `p`. -/
def Heap.store (h : Heap) (p : Nat) (k v : String) : Heap :=
  { h with cells := Function.update h.cells p ((h.cells p).insert k v) }

/-! ## Document model (`src/docker-compose-file.go`) -/

/-- BuildConfig represents build configuration. -/
structure BuildConfig where
  Context : String := ""
  Dockerfile : String := ""
  Args : GoMap String := none
  Target : String := ""
  Labels : GoMap String := none
  CacheFrom : List String := []
  Network : String := ""
  ShmSize : String := ""
  Secrets : List String := []

/-- UpdateConfig represents update configuration. -/
structure UpdateConfig where
  Parallelism : Int := 0
  Delay : Option Int := none
  FailureAction : String := ""
  Monitor : Option Int := none
  MaxFailureRatio : Nat := 0
  Order : String := ""

/-- ResourceLimit represents resource limits. -/
structure ResourceLimit where
  CPUs : String := ""
  Memory : String := ""
  Devices : List String := []

/-- ResourcesConfig represents resource constraints. -/
structure ResourcesConfig where
  Limits : Option ResourceLimit := none
  Reservations : Option ResourceLimit := none

/-- RestartPolicyConfig represents restart policy. -/
structure RestartPolicyConfig where
  Condition : String := ""
  Delay : Option Int := none
  MaxAttempts : Int := 0
  Window : Option Int := none

/-- PlacementConfig represents placement constraints. -/
structure PlacementConfig where
  Constraints : List String := []
  Preferences : List (GoMap String) := []
  MaxReplicas : Int := 0

/-- DeployConfig represents deployment configuration. -/
structure DeployConfig where
  Mode : String := ""
  Replicas : Int := 0
  Labels : GoMap String := none
  UpdateConfig : Option UpdateConfig := none
  Resources : Option ResourcesConfig := none
  RestartPolicy : Option RestartPolicyConfig := none
  Placement : Option PlacementConfig := none
  EndpointMode : String := ""

/-- HealthCheckConfig represents health check configuration. -/
structure HealthCheckConfig where
  Test : AnyValue := .nil
  Interval : Option Int := none
  Timeout : Option Int := none
  Retries : Int := 0
  StartPeriod : Option Int := none
  Disable : Bool := false

/-- Service represents a service definition in docker-compose. -/
structure Service where
  Image : String := ""
  Environment : MapRef := none
  Build : Option BuildConfig := none
  ContainerName : String := ""
  Command : AnyValue := .nil
  Entrypoint : AnyValue := .nil
  EnvFile : AnyValue := .nil
  Ports : List String := []
  Expose : List String := []
  Volumes : List String := []
  VolumesFrom : List String := []
  Networks : AnyValue := .nil
  DependsOn : AnyValue := .nil
  Links : List String := []
  ExternalLinks : List String := []
  Restart : String := ""
  User : String := ""
  WorkingDir : String := ""
  Hostname : String := ""
  DomainName : String := ""
  MacAddress : String := ""
  Privileged : Bool := false
  ReadOnly : Bool := false
  StdinOpen : Bool := false
  Tty : Bool := false
  CPU : Nat := 0
  CPUs : String := ""
  CPUSet : String := ""
  Memory : String := ""
  MemSwap : String := ""
  ShmSize : String := ""
  PidMode : String := ""
  IPC : String := ""
  SecurityOpt : List String := []
  StopSignal : String := ""
  StopGracePeriod : Option Int := none
  Ulimits : GoMap AnyValue := none
  Devices : List String := []
  Labels : MapRef := none
  LogDriver : String := ""
  LogOpt : GoMap String := none
  ExtraHosts : List String := []
  DNS : AnyValue := .nil
  DNSSearch : List String := []
  DNSOpt : List String := []
  TmpFS : AnyValue := .nil
  Secrets : List String := []
  Configs : List String := []
  Deploy : Option DeployConfig := none
  HealthCheck : Option HealthCheckConfig := none

/-- IPAMConfig represents IPAM configuration. -/
structure IPAMConfig where
  Driver : String := ""
  Config : List (GoMap AnyValue) := []
  Options : GoMap String := none

/-- Network represents a network definition. -/
structure Network where
  Driver : String := ""
  DriverOpts : GoMap String := none
  IPAM : Option IPAMConfig := none
  External : AnyValue := .nil
  Labels : GoMap String := none
  EnableIPv6 : Bool := false
  Attachable : Bool := false
  Internal : Bool := false
  Name : String := ""

/-- Volume represents a volume definition. -/
structure Volume where
  Driver : String := ""
  DriverOpts : GoMap String := none
  External : AnyValue := .nil
  Labels : GoMap String := none
  Name : String := ""

/-- Secret represents a secret definition. -/
structure Secret where
  File : String := ""
  External : AnyValue := .nil
  Labels : GoMap String := none
  Name : String := ""

/-- Config represents a config definition. -/
structure Config where
  File : String := ""
  External : AnyValue := .nil
  Labels : GoMap String := none
  Name : String := ""

/-- DockerCompose represents the root structure of a docker-compose.yml file. -/
structure DockerCompose where
  Version : String := ""
  Services : GoMap Service := none
  Networks : GoMap Network := none
  Volumes : GoMap Volume := none
  Secrets : GoMap Secret := none
  Configs : GoMap Config := none

/-! ## Configuration (`src/main.go`) and merge options (`src/action-merge.go`) -/

/-- The options record of a request (`Options` in `src/main.go`). -/
structure Options where
  Action : String := ""
  Base : String := ""
  Output : String := ""
  Overrides : List String := []
  ProjectPath : String := ""
  ProjectFolder : String := ""
  Projects : List String := []
  BasePath : String := ""
  ConfigFolder : String := ""

/-- The two entities handed to a conflict handler as `interface{}` values. -/
inductive ConflictItem where
  | service (s : Service)
  | network (n : Network)
  | volume (v : Volume)
  | config (c : Config)

/-- MergeOptions: `OnConflict` is `none` for a `nil` function value.  The handler is a
function of the four arguments it is called with. -/
structure MergeOptions where
  MergeServices : Bool
  PreferFirst : Bool
  OnConflict : Option (String → String → ConflictItem → ConflictItem → Bool)

/-! ## Path functions of the Go standard library (`path/filepath`, Unix separator)

`handleSecrets` calls `filepath.Base` and `filepath.Join`; they are modelled after their
documented behaviour on slash-separated paths. -/

/-- The slash-separated elements of a path, empty elements included. -/
def splitSlash : List Char → List (List Char)
  | [] => [[]]
  | c :: cs =>
    if c = '/' then [] :: splitSlash cs
    else
      match splitSlash cs with
      | [] => [[c]]
      | x :: xs => (c :: x) :: xs

/-- One element of `filepath.Clean`; `stack` holds the kept elements, last one first.
Empty and `.` elements are dropped; `..` removes the last kept element, is dropped at the
root and is kept at the start of a relative path. -/
def cleanStep (rooted : Bool) (stack : List String) (c : String) : List String :=
  if c = "" ∨ c = "." then stack
  else if c = ".." then
    match stack with
    | top :: rest => if top = ".." then ".." :: stack else rest
    | [] => if rooted then [] else [".."]
  else c :: stack

/-- Go `filepath.Clean`: the shortest path name equivalent to `path` by lexical processing. -/
def filepathClean (path : String) : String :=
  if path = "" then "."
  else
    let rooted : Bool := path.data.head? = some '/'
    let stack := ((splitSlash path.data).map String.mk).foldl (cleanStep rooted) []
    let out := "/".intercalate stack.reverse
    if rooted then "/" ++ out
    else if out = "" then "." else out

/-- Go `filepath.Join`: empty elements before the first non-empty one are ignored, the rest
is joined with `/` and cleaned; the result is empty when every element is empty. -/
def filepathJoin (elem : List String) : String :=
  match elem.dropWhile (fun e => decide (e = "")) with
  | [] => ""
  | rest => filepathClean ("/".intercalate rest)

/-- Go `filepath.Base`: the last element of the path, after removing trailing slashes;
`.` for the empty path and `/` for a path of slashes only. -/
def filepathBase (path : String) : String :=
  if path = "" then "."
  else
    let stripped := (path.data.reverse.dropWhile (fun c => decide (c = '/'))).reverse
    let last := (stripped.reverse.takeWhile (fun c => decide (c ≠ '/'))).reverse
    if last = [] then "/" else String.mk last

/-- Go `strings.Split(s, "/")`. -/
def stringsSplitSlash (s : String) : List String :=
  (splitSlash s.data).map String.mk

/-- An ordinary file name: not empty, not `.` or `..`, and without a path separator. -/
def ordinaryName (f : String) : Bool :=
  decide (f ≠ "") && decide (f ≠ ".") && decide (f ≠ "..") && !(f.data.contains '/')

/-! ## The merge functions (`src/action-merge.go`) -/

/-- The map-merging block of `mergeServices`, written out there once for `Environment` and
once for `Labels`: when `src` has entries, `dst` is created if it is `nil` and every entry
of `src` is stored into it, in place. -/
def mergeStringMap (h : Heap) (dst src : MapRef) : MapRef × Heap :=
  if 0 < (h.deref src).entries.length then
    let made : Nat × Heap :=
      match dst with
      | none => h.alloc
      | some p => (p, h)
    (some made.1,
      (made.2.deref src).entries.foldl (fun hh e => hh.store made.1 e.1 e.2) made.2)
  else (dst, h)

/-- Go `mergeServices`: combines two services, with the second taking precedence for
conflicting fields.  Returns the combined service and the heap after the in-place writes. -/
def mergeServices (h : Heap) (a b : Service) : Service × Heap :=
  let result := a
  let result := if b.Image ≠ "" then { result with Image := b.Image } else result
  let result := if b.Build.isSome then { result with Build := b.Build } else result
  let result :=
    if b.ContainerName ≠ "" then { result with ContainerName := b.ContainerName } else result
  let result := if !b.Command.isNil then { result with Command := b.Command } else result
  let result :=
    if !b.Entrypoint.isNil then { result with Entrypoint := b.Entrypoint } else result
  let env := mergeStringMap h result.Environment b.Environment
  let result := { result with Environment := env.1 }
  let lab := mergeStringMap env.2 result.Labels b.Labels
  let result := { result with Labels := lab.1 }
  let result :=
    if 0 < b.Ports.length then { result with Ports := result.Ports ++ b.Ports } else result
  let result :=
    if 0 < b.Volumes.length then { result with Volumes := result.Volumes ++ b.Volumes }
    else result
  let result := { result with DependsOn := b.DependsOn }
  let result := if b.Restart ≠ "" then { result with Restart := b.Restart } else result
  let result := if b.User ≠ "" then { result with User := b.User } else result
  let result := if b.WorkingDir ≠ "" then { result with WorkingDir := b.WorkingDir } else result
  (result, lab.2)

/-- The body of each of the two loops of `handleSecrets`: a new secret that copies the
entry and, when its file is not empty, moves the file into the build's config folder. -/
def rewriteSecret (cfg : Options) (s : Secret) : Secret :=
  let newSecret : Secret :=
    { File := s.File, External := s.External, Labels := s.Labels, Name := s.Name }
  if newSecret.File ≠ "" then
    let filename := filepathBase s.File
    let newFilePath := filepathJoin [cfg.ProjectPath, cfg.Output, "config", filename]
    { newSecret with File := newFilePath }
  else newSecret

/-- Go `handleSecrets`: the rewritten secrets of `a`, then those of `b`, stored into one
fresh map.  The error result of the Go function is always `nil`. -/
def handleSecrets (cfg : Options) (a b : GoMap Secret) : Except String (StrMap Secret) :=
  let result : StrMap Secret := ∅
  let result := a.entries.foldl (fun r e => r.insert e.1 (rewriteSecret cfg e.2)) result
  let result := b.entries.foldl (fun r e => r.insert e.1 (rewriteSecret cfg e.2)) result
  .ok result

/-- Go `maps.Copy(dst, src)`: every entry of `src` is stored into `dst`. -/
def mapsCopy {V : Type} (dst : StrMap V) (src : GoMap V) : StrMap V :=
  src.entries.foldl (fun d e => d.insert e.1 e.2) dst

/-- One iteration of the service loop of `combineDockerCompose` over `b.Services`. -/
def serviceStep (opts : MergeOptions) (st : StrMap Service × Heap)
    (e : Sigma (fun _ : String => Service)) : StrMap Service × Heap :=
  match st.1.lookup e.1 with
  | some existing =>
    let useSecond : Bool :=
      match opts.OnConflict with
      | some onConflict => onConflict "service" e.1 (.service existing) (.service e.2)
      | none => !opts.PreferFirst
    if useSecond then
      if opts.MergeServices then
        let merged := mergeServices st.2 existing e.2
        (st.1.insert e.1 merged.1, merged.2)
      else (st.1.insert e.1 e.2, st.2)
    else st
  | none => (st.1.insert e.1 e.2, st.2)

/-- One iteration of the loops of `mergeMap` over the second map of networks, volumes or
configs: with an existing entry and a handler the handler decides; otherwise the entry is
stored when it is new or when the first document is not preferred. -/
def overlayStep {V : Type} (opts : MergeOptions) (itemType : String) (wrap : V → ConflictItem)
    (result : StrMap V) (e : Sigma (fun _ : String => V)) : StrMap V :=
  match result.lookup e.1, opts.OnConflict with
  | some existing, some onConflict =>
    if onConflict itemType e.1 (wrap existing) (wrap e.2) then result.insert e.1 e.2
    else result
  | some _, none => if !opts.PreferFirst then result.insert e.1 e.2 else result
  | none, _ => result.insert e.1 e.2

/-- A case of `mergeMap` for networks, volumes or configs: copy the first map into the
fresh result map, then overlay the second.  `itemType` is the kind name the case hands to
the handler (`network`, `volume` or `config`) and `wrap` the boxing of an entity into the
handler's `interface{}` argument. -/
def mergeMap {V : Type} (opts : MergeOptions) (itemType : String) (wrap : V → ConflictItem)
    (aMap bMap : GoMap V) : StrMap V :=
  bMap.entries.foldl (overlayStep opts itemType wrap) (mapsCopy ∅ aMap)

/-- Go `combineDockerCompose`, a method of the compiler whose configuration is `cfg`.
Returns the error or the resulting document, and the heap after the call. -/
def combineDockerCompose (cfg : Options) (h : Heap) (a b : Option DockerCompose)
    (opts : MergeOptions) : Except String DockerCompose × Heap :=
  match a, b with
  | none, none => (.error "no compose files passed", h)
  | none, some b => (.ok b, h)
  | some a, none => (.ok a, h)
  | some a, some b =>
    let version :=
      if opts.PreferFirst then (if a.Version = "" then b.Version else a.Version)
      else (if b.Version = "" then a.Version else b.Version)
    let services := b.Services.entries.foldl (serviceStep opts) (mapsCopy ∅ a.Services, h)
    let networks := mergeMap opts "network" ConflictItem.network a.Networks b.Networks
    let volumes := mergeMap opts "volume" ConflictItem.volume a.Volumes b.Volumes
    let secrets : StrMap Secret :=
      match handleSecrets cfg a.Secrets b.Secrets with
      | .error _ => ∅
      | .ok newSecrets => newSecrets
    let configs := mergeMap opts "config" ConflictItem.config a.Configs b.Configs
    (.ok { Version := version, Services := some services.1, Networks := some networks,
           Volumes := some volumes, Secrets := some secrets, Configs := some configs },
     services.2)

/-- Go `DefaultOnConflict`: the default implementation for `OnConflict`, which always
prefers the second (later) item. -/
def DefaultOnConflict (_itemType _name : String) (_first _second : ConflictItem) : Bool :=
  true

/-- The merge options that `Build` passes to every call of `combineDockerCompose`. -/
def buildMergeOpts : MergeOptions :=
  { MergeServices := true, PreferFirst := false, OnConflict := some DefaultOnConflict }

/-! ## Build-context injection (`src/action-merge.go`) -/

/-- Go `CheckBuildContext`: checks that a service has a build section and sets its build
context.  The service is passed by pointer; the result is the error (`none` for `nil`)
and the service as the call leaves it. -/
def CheckBuildContext (cfg : Options) (service : Service) (serviceName : String) :
    Option String × Service :=
  match service.Build with
  | none => (some "Build field not found", service)
  | some build =>
    (none,
      { service with
        Build := some
          { build with
            Context := cfg.ProjectPath ++ "/" ++ cfg.ProjectFolder ++ "/" ++ serviceName } })

/-! ## The pipeline (`src/action-merge.go`, `src/main.go`)

Reading and writing files, the YAML codec and the JSON decoder are collaborators outside
the repository.  They are parameters of the model, and every file-system call the program
makes is recorded, so that a statement about what the program reads or writes is a
statement about that record.  Console output (`fmt.Println`, `log.Printf`) is left out. -/

/-- Go `ExecutionRequestBody`. -/
structure ExecutionRequestBody where
  Args : GoMap String := none
  Options : Options := {}
  Input : String := ""

/-- Go `DockerComposeCompiler`; `Config` is never `nil` and `Store` is `none` until `Build`
sets it. -/
structure DockerComposeCompiler where
  Config : Options
  Store : Option DockerCompose := none

/-- A call to the file system. -/
inductive FileEvent where
  | read (path : String)
  | write (path : String) (data : String)

/-- The collaborators outside the repository: `os.ReadFile`, `yaml.Unmarshal` (which
allocates the maps of the services it decodes), `yaml.Marshal`, `os.WriteFile` (its error,
`none` for `nil`) and `json.Unmarshal`. -/
structure Collaborators where
  osReadFile : String → Except String String
  yamlUnmarshal : Heap → String → Except String DockerCompose × Heap
  yamlMarshal : Heap → Option DockerCompose → Except String String
  osWriteFile : String → String → Option String
  jsonUnmarshal : String → Except String ExecutionRequestBody

/-- The state the pipeline runs in: the heap of service maps and the file-system calls made
so far, the latest last. -/
structure World where
  heap : Heap
  calls : List FileEvent

/-- Go `ReadFile`: read and parse a docker-compose.yml file. -/
def ReadFile (ext : Collaborators) (w : World) (filePath : String) :
    Except String DockerCompose × World :=
  let w1 : World := { w with calls := w.calls ++ [.read filePath] }
  match ext.osReadFile filePath with
  | .error err => (.error err, w1)
  | .ok composeFile =>
    let parsed := ext.yamlUnmarshal w1.heap composeFile
    (parsed.1, { w1 with heap := parsed.2 })

/-- Go `writeFile`: marshal the store and write it to the output file.  Returns the error
(`none` for `nil`). -/
def writeFile (ext : Collaborators) (dc : DockerComposeCompiler) (w : World)
    (outputFilePath : String) : Option String × World :=
  match ext.yamlMarshal w.heap dc.Store with
  | .error err => (some ("error marshaling DockerCompose data to YAML: " ++ err), w)
  | .ok yamlBytes =>
    let w1 : World := { w with calls := w.calls ++ [.write outputFilePath yamlBytes] }
    match ext.osWriteFile outputFilePath yamlBytes with
    | some err => (some ("error writing docker-compose.yml file: " ++ err), w1)
    | none => (none, w1)

/-- One iteration of the loop of `GetServices` over the configured projects: a project
whose file cannot be read or parsed is skipped; otherwise the build context of the service
named after the last segment of the project is set, if there is such a service, and the
document is appended. -/
def getServicesStep (ext : Collaborators) (cfg : Options) (st : List DockerCompose × World)
    (s : String) : List DockerCompose × World :=
  let serviceFilePath :=
    filepathJoin [cfg.ProjectPath, cfg.ProjectFolder, s, "docker-compose.yml"]
  let read := ReadFile ext st.2 serviceFilePath
  match read.1 with
  | .error _ => (st.1, read.2)
  | .ok serviceCompose =>
    let serviceParts := stringsSplitSlash s
    let serviceName := serviceParts.getLastD ""
    match serviceCompose.Services.lookup serviceName with
    | some service =>
      let checked := CheckBuildContext cfg service serviceName
      let serviceCompose : DockerCompose :=
        { serviceCompose with
          Services := serviceCompose.Services.store serviceName checked.2 }
      (st.1 ++ [serviceCompose], read.2)
    | none => (st.1 ++ [serviceCompose], read.2)

/-- Go `GetServices`: the documents of the configured projects that could be loaded, in
order.  The error result of the Go function is always `nil`. -/
def GetServices (ext : Collaborators) (cfg : Options) (w : World) :
    Except String (List DockerCompose) × World :=
  let done := cfg.Projects.foldl (getServicesStep ext cfg) ([], w)
  (.ok done.1, done.2)

/-- One iteration of the merge loop of `Build`: an earlier error ends the loop, otherwise
the next project document is combined into the store. -/
def mergeStep (cfg : Options) (st : Except String DockerCompose × Heap) (s : DockerCompose) :
    Except String DockerCompose × Heap :=
  match st.1 with
  | .error _ => st
  | .ok combinedStore =>
    combineDockerCompose cfg st.2 (some combinedStore) (some s) buildMergeOpts

/-- The merge part of `Build`: the base document is combined with no document, then every
project document is combined into the result, in order. -/
def mergeAll (cfg : Options) (h : Heap) (baseCompose : DockerCompose)
    (servicesCompose : List DockerCompose) : Except String DockerCompose × Heap :=
  servicesCompose.foldl (mergeStep cfg)
    (combineDockerCompose cfg h (some baseCompose) none buildMergeOpts)

/-- Go `Build`: builds the system's compose file.  Returns the error (`none` for `nil`),
the compiler with its store, and the world after the call. -/
def Build (ext : Collaborators) (dc : DockerComposeCompiler) (w : World) :
    Option String × DockerComposeCompiler × World :=
  if dc.Config.ProjectPath = "" then (some "project path not set", dc, w)
  else if dc.Config.Output = "" then (some "output path not set", dc, w)
  else
    let basePath := dc.Config.ProjectPath ++ "/" ++ dc.Config.BasePath
    let base := ReadFile ext w basePath
    match base.1 with
    | .error err =>
      (some ("error reading base yml:\n\tpath:" ++ basePath ++ "\n\terror:" ++ err), dc, base.2)
    | .ok baseCompose =>
      let services := GetServices ext dc.Config base.2
      match services.1 with
      | .error err =>
        (some ("error reading service level docker-compose.yml:\n\terror:" ++ err), dc,
          services.2)
      | .ok servicesCompose =>
        let merged := mergeAll dc.Config services.2.heap baseCompose servicesCompose
        let w2 : World := { services.2 with heap := merged.2 }
        match merged.1 with
        | .error err => (some err, dc, w2)
        | .ok combinedStore =>
          let dc1 : DockerComposeCompiler := { dc with Store := some combinedStore }
          let outputFilePath :=
            dc.Config.ProjectPath ++ "/" ++ dc.Config.Output ++ "/docker/docker-compose.yml"
          let written := writeFile ext dc1 w2 outputFilePath
          (written.1, dc1, written.2)

/-- Go `Merge`: runs `Build` on a compiler configured from the request.  Returns the Go
result pair (a string and the error, `none` for `nil`) and the world after the call. -/
def Merge (ext : Collaborators) (request : ExecutionRequestBody) (w : World) :
    (String × Option String) × World :=
  let built := Build ext { Config := request.Options } w
  (("", built.1), built.2.2)

/-- Go `Execute`: decodes the request and runs the action it names.  Returns the Go result
pair (a string and the error, `none` for `nil`) and the world after the call. -/
def Execute (ext : Collaborators) (w : World) (body : String) :
    (String × Option String) × World :=
  match ext.jsonUnmarshal body with
  | .error err => (("", some err), w)
  | .ok request =>
    if request.Options.Action = "merge" then
      let merged := Merge ext request w
      (("Success", none), merged.2)
    else (("", some (request.Options.Action ++ " action not found")), w)

/-! ## Outcome of one loop iteration -/

/-- The entity that an iteration of a `mergeMap` loop leaves under the name it visits,
given the entry found there before (if any) and the incoming entity. -/
def overlayChoice {V : Type} (opts : MergeOptions) (itemType : String)
    (wrap : V → ConflictItem) (name : String) (existing : Option V) (incoming : V) : V :=
  match existing, opts.OnConflict with
  | some ex, some onConflict =>
    if onConflict itemType name (wrap ex) (wrap incoming) then incoming else ex
  | some ex, none => if opts.PreferFirst then ex else incoming
  | none, _ => incoming

/-- The service that an iteration of the service loop leaves under the name it visits,
given the heap at that moment, the entry found there before (if any) and the incoming
service. -/
def serviceChoice (opts : MergeOptions) (h : Heap) (name : String)
    (existing : Option Service) (incoming : Service) : Service :=
  match existing with
  | some ex =>
    let useSecond : Bool :=
      match opts.OnConflict with
      | some onConflict => onConflict "service" name (.service ex) (.service incoming)
      | none => !opts.PreferFirst
    if useSecond then
      if opts.MergeServices then (mergeServices h ex incoming).1 else incoming
    else ex
  | none => incoming

/-- The state of the service loop of `combineDockerCompose` after it has visited the
entries `visited` of `b.Services`: the result's service map and the heap. -/
def serviceLoop (opts : MergeOptions) (h : Heap) (a : DockerCompose)
    (visited : List (Sigma (fun _ : String => Service))) : StrMap Service × Heap :=
  visited.foldl (serviceStep opts) (mapsCopy ∅ a.Services, h)

/-! ## Well-formed references -/

/-- The reference is `nil` or points into the allocated part of the heap. -/
def Heap.valid (h : Heap) (r : MapRef) : Bool :=
  match r with
  | none => true
  | some p => decide (p < h.next)

/-- The two references are not the same map; a `nil` map is apart from every map. -/
def apart (r s : MapRef) : Bool :=
  match r, s with
  | some p, some q => decide (p ≠ q)
  | _, _ => true

/-- The environment and label maps of two services are maps of their own, as decoding
produces them: the four references are valid and the environment map of `a` is not also
used as a label map of `a` or of `b`. -/
def ownMaps (h : Heap) (a b : Service) : Bool :=
  h.valid a.Environment && h.valid a.Labels && h.valid b.Environment && h.valid b.Labels &&
    apart a.Environment a.Labels && apart a.Environment b.Labels

/-! ## Reference definition of the secret merger (from the specification) -/

/-- Rewriting of one secret as the specification words it: external flag, labels and
declared name are kept; an empty file path stays empty; a non-empty file path is replaced
with `<project-root>/<output-folder>/config/<basename-of-original-path>`, written out as
that string. -/
def rewriteSecretSpec (projectRoot output : String) (s : Secret) : Secret :=
  { External := s.External
    Labels := s.Labels
    Name := s.Name
    File :=
      if s.File = "" then ""
      else projectRoot ++ "/" ++ output ++ "/" ++ "config" ++ "/" ++ filepathBase s.File }

/-- The secret merger as the specification words it: the rewritten entries of `a` overlaid
by the rewritten entries of `b`, given as the entry found under each name. -/
def mergeSecretsSpec (projectRoot output : String) (a b : GoMap Secret) (name : String) :
    Option Secret :=
  match b.lookup name with
  | some s => some (rewriteSecretSpec projectRoot output s)
  | none => (a.lookup name).map (rewriteSecretSpec projectRoot output)

/-- The staging directory `<project-root>/<output-folder>/config` is written in clean
form: the project root is not empty and cleaning the path changes nothing (it has no
doubled separator, no `.` or `..` element and no trailing separator). -/
def stagingPathClean (projectRoot output : String) : Bool :=
  decide (projectRoot ≠ "") &&
    decide (filepathClean (projectRoot ++ "/" ++ output ++ "/" ++ "config")
      = projectRoot ++ "/" ++ output ++ "/" ++ "config")

/-- The secret that a name has in the last of the documents base, first project, second
project, ... that declares it; `none` when no document declares the name. -/
def lastDeclared (base : DockerCompose) (projects : List DockerCompose) (name : String) :
    Option Secret :=
  projects.foldl
    (fun acc p =>
      match p.Secrets.lookup name with
      | some t => some t
      | none => acc)
    (base.Secrets.lookup name)

/-! ## Sample inputs -/

/-- A heap holding the environment maps `{X: "1"}` (address 0) and `{Y: "2"}` (address 1) and
the label maps `{tier: "front"}` (address 2) and `{team: "core"}` (address 3). -/
def sampleHeap : Heap :=
  { next := 4
    cells := fun p =>
      if p = 0 then AList.singleton "X" "1"
      else if p = 1 then AList.singleton "Y" "2"
      else if p = 2 then AList.singleton "tier" "front"
      else if p = 3 then AList.singleton "team" "core"
      else ∅ }

/-- Service `web` of the first sample document. -/
def sampleWebA : Service :=
  { Image := "nginx", Environment := some 0, Labels := some 2, Ports := ["80:80"] }

/-- Service `web` of the second sample document. -/
def sampleWebB : Service :=
  { Environment := some 1, Labels := some 3, Restart := "always" }

/-- A base document: service `web`, network `net`, volume `data`, config `app`. -/
def sampleDocA : DockerCompose :=
  { Version := "3"
    Services := some (AList.singleton "web" sampleWebA)
    Networks := some (AList.singleton "net" { Driver := "bridge" })
    Volumes := some (AList.singleton "data" { Driver := "local" })
    Configs := some (AList.singleton "app" { File := "./app.conf" }) }

/-- A project document that declares the same names with other contents. -/
def sampleDocB : DockerCompose :=
  { Version := "3.8"
    Services := some (AList.singleton "web" sampleWebB)
    Networks := some (AList.singleton "net" { Driver := "overlay" })
    Volumes := some (AList.singleton "data" { Driver := "nfs" })
    Configs := some (AList.singleton "app" { File := "./override.conf" }) }

/-- A configuration with project root `/app`, output folder `build` and a config folder
named `secrets`. -/
def sampleConfig : Options :=
  { ProjectPath := "/app", Output := "build", ConfigFolder := "secrets" }

/-- A secret backed by the file `/secrets/creds.pem`. -/
def sampleSecret : Secret :=
  { File := "/secrets/creds.pem", Name := "creds" }

/-- A secrets collection holding `sampleSecret` under the name `creds`. -/
def sampleSecrets : GoMap Secret :=
  some (AList.singleton "creds" sampleSecret)

/-- A secrets collection whose one secret has a file path that ends in `..`. -/
def sampleOddSecrets : GoMap Secret :=
  some (AList.singleton "up" { File := "certs/.." })

/-- A heap holding the environment maps `{X: "1", Y: "2"}` (address 0) and
`{Y: "3", Z: "4"}` (address 1) and the label maps `{tier: "front"}` (address 2) and
`{team: "core"}` (address 3). -/
def sampleEnvHeap : Heap :=
  { next := 4
    cells := fun p =>
      if p = 0 then (AList.singleton "X" "1").insert "Y" "2"
      else if p = 1 then (AList.singleton "Y" "3").insert "Z" "4"
      else if p = 2 then AList.singleton "tier" "front"
      else if p = 3 then AList.singleton "team" "core"
      else ∅ }

/-- A service with environment `{X: "1", Y: "2"}` and labels `{tier: "front"}`. -/
def sampleEnvA : Service :=
  { Environment := some 0, Labels := some 2 }

/-- A service with environment `{Y: "3", Z: "4"}` and labels `{team: "core"}`. -/
def sampleEnvB : Service :=
  { Environment := some 1, Labels := some 3 }

/-- A service in which every field is populated; its environment and label maps are the
maps at addresses 0 and 2 of `sampleEnvHeap`. -/
def sampleFullService : Service :=
  { Image := "nginx:1.27"
    Environment := some 0
    Build := some { Context := ".", Dockerfile := "Dockerfile", Args := some (AList.singleton "V" "1"),
                    Target := "prod", Labels := some (AList.singleton "b" "1"),
                    CacheFrom := ["nginx"], Network := "host", ShmSize := "64m",
                    Secrets := ["creds"] }
    ContainerName := "web"
    Command := .str "nginx"
    Entrypoint := .seq [.str "/entry.sh"]
    EnvFile := .str ".env"
    Ports := ["80:80"]
    Expose := ["80"]
    Volumes := ["data:/data"]
    VolumesFrom := ["base"]
    Networks := .seq [.str "net"]
    DependsOn := .seq [.str "db"]
    Links := ["db"]
    ExternalLinks := ["cache"]
    Restart := "always"
    User := "www"
    WorkingDir := "/srv"
    Hostname := "web"
    DomainName := "example.org"
    MacAddress := "02:42:ac:11:00:02"
    Privileged := true
    ReadOnly := true
    StdinOpen := true
    Tty := true
    CPU := 1
    CPUs := "0.5"
    CPUSet := "0"
    Memory := "256m"
    MemSwap := "512m"
    ShmSize := "64m"
    PidMode := "host"
    IPC := "host"
    SecurityOpt := ["no-new-privileges"]
    StopSignal := "SIGTERM"
    StopGracePeriod := some 10
    Ulimits := some (AList.singleton "nofile" (.int 1024))
    Devices := ["/dev/null:/dev/null"]
    Labels := some 2
    LogDriver := "json-file"
    LogOpt := some (AList.singleton "max-size" "10m")
    ExtraHosts := ["db:10.0.0.2"]
    DNS := .str "8.8.8.8"
    DNSSearch := ["example.org"]
    DNSOpt := ["ndots:1"]
    TmpFS := .str "/tmp"
    Secrets := ["creds"]
    Configs := ["app"]
    Deploy := some { Mode := "replicated", Replicas := 2, Labels := some (AList.singleton "d" "1"),
                     UpdateConfig := some { Parallelism := 1, Delay := some 1, FailureAction := "pause",
                                            Monitor := some 1, MaxFailureRatio := 1, Order := "stop-first" },
                     Resources := some { Limits := some { CPUs := "1", Memory := "1g", Devices := ["gpu"] },
                                         Reservations := some { CPUs := "1", Memory := "1g",
                                                                Devices := ["gpu"] } },
                     RestartPolicy := some { Condition := "any", Delay := some 1, MaxAttempts := 3,
                                             Window := some 1 },
                     Placement := some { Constraints := ["node.role==worker"],
                                         Preferences := [some (AList.singleton "spread" "zone")],
                                         MaxReplicas := 1 },
                     EndpointMode := "vip" }
    HealthCheck := some { Test := .str "curl -f http://localhost", Interval := some 30,
                          Timeout := some 5, Retries := 3, StartPeriod := some 1, Disable := true } }

/-- The body of a request for the action `merge` that sets no project path. -/
def sampleMergeBody : String :=
  "\x7b\"options\":\x7b\"action\":\"merge\",\"projectPath\":\"\"\x7d\x7d"

/-- The request that `sampleMergeBody` decodes to. -/
def sampleMergeRequest : ExecutionRequestBody :=
  { Options := { Action := "merge", ProjectPath := "" } }

/-- The body of a request for the action `deploy`. -/
def sampleDeployBody : String :=
  "\x7b\"options\":\x7b\"action\":\"deploy\",\"projectPath\":\"/app\",\"output\":\"build\"\x7d\x7d"

/-- The request that `sampleDeployBody` decodes to. -/
def sampleDeployRequest : ExecutionRequestBody :=
  { Options := { Action := "deploy", ProjectPath := "/app", Output := "build" } }

/-- Collaborators for the samples: an empty file system (every read fails, every write
succeeds), a YAML codec that is never reached, and a JSON decoder that knows the two sample
bodies. -/
def sampleCollaborators : Collaborators :=
  { osReadFile := fun path => .error ("open " ++ path ++ ": no such file or directory")
    yamlUnmarshal := fun h _ => (.ok {}, h)
    yamlMarshal := fun _ _ => .ok ""
    osWriteFile := fun _ _ => none
    jsonUnmarshal := fun body =>
      if body = sampleMergeBody then .ok sampleMergeRequest
      else if body = sampleDeployBody then .ok sampleDeployRequest
      else .error "unexpected end of JSON input" }

/-- A world in which no file-system call has been made yet. -/
def sampleWorld : World :=
  { heap := sampleHeap, calls := [] }

/-- A project document with the service `api`, built from a Dockerfile. -/
def sampleProjectDoc : DockerCompose :=
  { Services := some
      (AList.singleton "api" { Image := "app", Build := some { Dockerfile := "Dockerfile" } }) }

/-- Collaborators whose file system holds the document of the project `api`, and nothing
else. -/
def sampleProjectCollaborators : Collaborators :=
  { osReadFile := fun path =>
      if path = "/app/services/api/docker-compose.yml" then
        .ok "services:\n  api:\n    image: app\n    build:\n      dockerfile: Dockerfile\n"
      else .error ("open " ++ path ++ ": no such file or directory")
    yamlUnmarshal := fun h _ => (.ok sampleProjectDoc, h)
    yamlMarshal := fun _ _ => .ok ""
    osWriteFile := fun _ _ => none
    jsonUnmarshal := fun _ => .error "unexpected end of JSON input" }

/-- A configuration with project root `/app`, project folder `services` and the one
project `api`. -/
def sampleProjectConfig : Options :=
  { ProjectPath := "/app", Output := "build", ProjectFolder := "services", Projects := ["api"] }

/-! # Theorems -/

/-! ## Keyed loops over maps -/

theorem GoMap.entries_nodupKeys {V : Type} (m : GoMap V) : m.entries.NodupKeys := by
  cases m with
  | none => exact List.nodupKeys_nil
  | some s => exact s.nodupKeys

theorem GoMap.lookup_eq_dlookup {V : Type} (k : String) (m : GoMap V) :
    m.lookup k = m.entries.dlookup k := by
  cases m with
  | none => rfl
  | some s => rfl

/-- A loop whose iterations leave every key but their own alone does not change the value
seen at a key that the loop never visits. -/
theorem foldl_look_of_not_mem {S V W : Type} (look : S → String → Option W)
    (step : S → Sigma (fun _ : String => V) → S)
    (hstep : ∀ s e k, k ≠ e.1 → look (step s e) k = look s k)
    (l : List (Sigma (fun _ : String => V))) (k : String) (hk : k ∉ l.keys) (s : S) :
    look (l.foldl step s) k = look s k := by
  induction l generalizing s with
  | nil => rfl
  | cons e l ih =>
    simp only [List.keys_cons, List.mem_cons, not_or] at hk
    rw [List.foldl_cons, ih hk.2, hstep s e k hk.1]

/-- An entry of a map with distinct keys splits the iteration order in two parts that do
not visit its key. -/
theorem split_at_key {V : Type} (l : List (Sigma (fun _ : String => V))) (nd : l.NodupKeys)
    (k : String) (v : V) (hv : l.dlookup k = some v) :
    ∃ pre post, l = pre ++ ⟨k, v⟩ :: post ∧ k ∉ pre.keys ∧ k ∉ post.keys := by
  have hmem : (⟨k, v⟩ : Sigma (fun _ : String => V)) ∈ l := List.of_mem_dlookup hv
  obtain ⟨pre, post, rfl⟩ := List.append_of_mem hmem
  refine ⟨pre, post, rfl, ?_, ?_⟩
  · intro hin
    have := nd
    rw [List.NodupKeys, List.keys, List.map_append, List.nodup_append] at this
    exact this.2.2 hin (by simp)
  · intro hin
    have := nd
    rw [List.NodupKeys, List.keys, List.map_append, List.nodup_append] at this
    have h2 := this.2.1
    simp only [List.map_cons, List.nodup_cons] at h2
    exact h2.1 hin

/-- The value a keyed loop leaves at a visited key is the one its iteration for that key
produced. -/
theorem foldl_look_of_mem {S V W : Type} (look : S → String → Option W)
    (step : S → Sigma (fun _ : String => V) → S)
    (hstep : ∀ s e k, k ≠ e.1 → look (step s e) k = look s k)
    (l : List (Sigma (fun _ : String => V))) (nd : l.NodupKeys)
    (k : String) (v : V) (hv : l.dlookup k = some v) (s : S) :
    ∃ pre post, l = pre ++ ⟨k, v⟩ :: post ∧ look (pre.foldl step s) k = look s k ∧
      look (l.foldl step s) k = look (step (pre.foldl step s) ⟨k, v⟩) k := by
  obtain ⟨pre, post, rfl, hpre, hpost⟩ := split_at_key l nd k v hv
  refine ⟨pre, post, rfl, foldl_look_of_not_mem look step hstep pre k hpre s, ?_⟩
  rw [List.foldl_append, List.foldl_cons]
  exact foldl_look_of_not_mem look step hstep post k hpost _

/-- Storing a (possibly transformed) copy of every entry: the loop of `maps.Copy` and the
loops of `handleSecrets`. -/
theorem foldl_insert_lookup {V W : Type} (f : V → W)
    (l : List (Sigma (fun _ : String => V))) (nd : l.NodupKeys) (d : StrMap W) (k : String) :
    (l.foldl (fun r e => r.insert e.1 (f e.2)) d).lookup k =
      match l.dlookup k with
      | some v => some (f v)
      | none => d.lookup k := by
  have hstep : ∀ (s : StrMap W) (e : Sigma (fun _ : String => V)) (k : String), k ≠ e.1 →
      (s.insert e.1 (f e.2)).lookup k = s.lookup k :=
    fun s e k hk => AList.lookup_insert_ne hk
  cases hv : l.dlookup k with
  | none =>
    have hk : k ∉ l.keys := List.dlookup_eq_none.1 hv
    exact foldl_look_of_not_mem (fun s k => s.lookup k) _ hstep l k hk d
  | some v =>
    obtain ⟨pre, post, _, _, hres⟩ :=
      foldl_look_of_mem (fun s k => s.lookup k) _ hstep l nd k v hv d
    simp only at hres
    rw [hres]
    exact AList.lookup_insert _

theorem mapsCopy_empty_lookup {V : Type} (src : GoMap V) (k : String) :
    (mapsCopy ∅ src).lookup k = src.lookup k := by
  unfold mapsCopy
  have := foldl_insert_lookup (fun v : V => v) src.entries src.entries_nodupKeys ∅ k
  rw [this, GoMap.lookup_eq_dlookup]
  cases src.entries.dlookup k <;> simp

/-! ## Path functions -/

theorem splitSlash_ne_nil (xs : List Char) : splitSlash xs ≠ [] := by
  cases xs with
  | nil => simp [splitSlash]
  | cons c cs =>
    unfold splitSlash
    split_ifs
    · simp
    · cases splitSlash cs <;> simp

/-- Splitting at a separator splits the list of elements. -/
theorem splitSlash_append (xs ys : List Char) :
    splitSlash (xs ++ '/' :: ys) = splitSlash xs ++ splitSlash ys := by
  induction xs with
  | nil => simp [splitSlash]
  | cons c cs ih =>
    by_cases hc : c = '/'
    · subst hc
      simp [splitSlash, ih]
    · have hne := splitSlash_ne_nil cs
      rw [List.cons_append, splitSlash, if_neg hc, ih, splitSlash, if_neg hc]
      cases hs : splitSlash cs with
      | nil => exact absurd hs hne
      | cons x rest => simp

theorem splitSlash_of_no_slash (ys : List Char) (h : '/' ∉ ys) : splitSlash ys = [ys] := by
  induction ys with
  | nil => rfl
  | cons c cs ih =>
    simp only [List.mem_cons, not_or] at h
    have hc : c ≠ '/' := fun hc => h.1 hc.symm
    simp [splitSlash, hc, ih h.2]

theorem intercalate_go_concat (s acc a : String) (l : List String) :
    String.intercalate.go acc s (l ++ [a]) = String.intercalate.go acc s l ++ s ++ a := by
  induction l generalizing acc with
  | nil => simp [String.intercalate.go]
  | cons x xs ih => simp [String.intercalate.go, ih]

theorem intercalate_concat (s a : String) (l : List String) (hl : l ≠ []) :
    s.intercalate (l ++ [a]) = s.intercalate l ++ s ++ a := by
  cases l with
  | nil => exact absurd rfl hl
  | cons x xs => simp [String.intercalate, intercalate_go_concat]

theorem cleanStep_ordinary (rooted : Bool) (stack : List String) (c : String)
    (hc : ordinaryName c = true) : cleanStep rooted stack c = c :: stack := by
  simp only [ordinaryName, Bool.and_eq_true, decide_eq_true_eq] at hc
  obtain ⟨⟨⟨h1, h2⟩, h3⟩, _⟩ := hc
  simp [cleanStep, h1, h2, h3]

theorem ordinaryName_no_slash (c : String) (hc : ordinaryName c = true) : '/' ∉ c.data := by
  simp only [ordinaryName, Bool.and_eq_true, decide_eq_true_eq] at hc
  simpa using hc.2

theorem ordinaryName_ne_empty (c : String) (hc : ordinaryName c = true) : c ≠ "" := by
  simp only [ordinaryName, Bool.and_eq_true, decide_eq_true_eq] at hc
  exact hc.1.1.1

theorem string_ne_empty_of_data (s : String) (h : s.data ≠ []) : s ≠ "" := by
  intro hs
  rw [hs] at h
  exact h rfl

/-- The elements of a path whose last element is `c`. -/
theorem splitSlash_ending (Y c : String) (hY : Y = "" ∨ ∃ Z : String, Y = Z ++ "/")
    (hc : '/' ∉ c.data) : ∃ L, splitSlash (Y ++ c).data = L ++ [c.data] := by
  rcases hY with hY | ⟨Z, hZ⟩
  · subst hY
    refine ⟨[], ?_⟩
    simp [splitSlash_of_no_slash c.data hc]
  · subst hZ
    refine ⟨splitSlash Z.data, ?_⟩
    have : (Z ++ "/" ++ c).data = Z.data ++ '/' :: c.data := by
      simp [String.data_append]
    rw [this, splitSlash_append, splitSlash_of_no_slash c.data hc]

/-- Cleaning a path that ends in two ordinary elements: the last element is appended to
the cleaned path of the rest. -/
theorem filepathClean_append_ordinary (Y c f : String)
    (hY : Y = "" ∨ ∃ Z : String, Y = Z ++ "/")
    (hc : ordinaryName c = true) (hf : ordinaryName f = true) :
    filepathClean (Y ++ c ++ "/" ++ f) = filepathClean (Y ++ c) ++ "/" ++ f := by
  obtain ⟨L, hL⟩ := splitSlash_ending Y c hY (ordinaryName_no_slash c hc)
  have hcd : c.data ≠ [] := by
    intro h
    exact ordinaryName_ne_empty c hc (String.ext h)
  have hXd : (Y ++ c).data ≠ [] := by
    rw [String.data_append]
    simp [hcd]
  have hdata : (Y ++ c ++ "/" ++ f).data = (Y ++ c).data ++ '/' :: f.data := by
    simp [String.data_append]
  have hX : Y ++ c ≠ "" := string_ne_empty_of_data _ hXd
  have hXf : Y ++ c ++ "/" ++ f ≠ "" := by
    apply string_ne_empty_of_data
    rw [hdata]
    simp [hXd]
  have hsplit : splitSlash (Y ++ c ++ "/" ++ f).data = L ++ [c.data] ++ [f.data] := by
    rw [hdata, splitSlash_append, hL, splitSlash_of_no_slash f.data (ordinaryName_no_slash f hf)]
  have hhead : (Y ++ c ++ "/" ++ f).data.head? = (Y ++ c).data.head? := by
    rw [hdata]
    cases hd : (Y ++ c).data with
    | nil => exact absurd hd hXd
    | cons x xs => rfl
  unfold filepathClean
  rw [if_neg hX, if_neg hXf]
  simp only [hsplit, hL, hhead, List.map_append, List.map_cons, List.map_nil, List.foldl_append,
    List.foldl_cons, List.foldl_nil, cleanStep_ordinary _ _ _ hc, cleanStep_ordinary _ _ _ hf,
    List.reverse_cons]
  have hne : (List.foldl (cleanStep (decide ((Y ++ c).data.head? = some '/'))) []
      (List.map String.mk L)).reverse ++ [c] ≠ [] := by simp
  rw [intercalate_concat "/" f _ hne]
  have hout : "/".intercalate ((List.foldl (cleanStep (decide ((Y ++ c).data.head? = some '/')))
      [] (List.map String.mk L)).reverse ++ [c]) ≠ "" := by
    apply string_ne_empty_of_data
    cases hr : (List.foldl (cleanStep (decide ((Y ++ c).data.head? = some '/'))) []
        (List.map String.mk L)).reverse with
    | nil => simpa [String.intercalate, String.intercalate.go] using hcd
    | cons x xs =>
      rw [intercalate_concat "/" c _ (by simp)]
      simp [String.data_append, hcd]
  split_ifs with h1 h2
  · simp [String.append_assoc]
  · exfalso
    exact string_ne_empty_of_data _ (by simp [String.data_append]) h2
  · rfl

/-- The rewritten path of a secret with an ordinary file name lies directly in the
directory joined from project root, output folder and `config`. -/
theorem filepathJoin_config_ordinary (r o f : String) (hf : ordinaryName f = true) :
    filepathJoin [r, o, "config", f] = filepathJoin [r, o, "config"] ++ "/" ++ f := by
  have hc : ordinaryName "config" = true := by decide
  by_cases hr : r = ""
  · by_cases ho : o = ""
    · subst hr ho
      have := filepathClean_append_ordinary "" "config" f (Or.inl rfl) hc hf
      simpa [filepathJoin, List.dropWhile, String.intercalate, String.intercalate.go] using this
    · subst hr
      have := filepathClean_append_ordinary (o ++ "/") "config" f (Or.inr ⟨o, rfl⟩) hc hf
      simpa [filepathJoin, List.dropWhile, ho, String.intercalate, String.intercalate.go]
        using this
  · have := filepathClean_append_ordinary (r ++ "/" ++ o ++ "/") "config" f
      (Or.inr ⟨r ++ "/" ++ o, rfl⟩) hc hf
    simpa [filepathJoin, List.dropWhile, hr, String.intercalate, String.intercalate.go]
      using this

/-! ## The loops of `combineDockerCompose` -/

theorem overlayStep_lookup_ne {V : Type} (opts : MergeOptions) (itemType : String)
    (wrap : V → ConflictItem) (r : StrMap V) (e : Sigma (fun _ : String => V)) (k : String)
    (hk : k ≠ e.1) : (overlayStep opts itemType wrap r e).lookup k = r.lookup k := by
  unfold overlayStep
  split
  · split
    · exact AList.lookup_insert_ne hk
    · rfl
  · split
    · exact AList.lookup_insert_ne hk
    · rfl
  · exact AList.lookup_insert_ne hk

theorem overlayStep_lookup_self {V : Type} (opts : MergeOptions) (itemType : String)
    (wrap : V → ConflictItem) (r : StrMap V) (k : String) (v : V) :
    (overlayStep opts itemType wrap r ⟨k, v⟩).lookup k =
      some (overlayChoice opts itemType wrap k (r.lookup k) v) := by
  unfold overlayStep overlayChoice
  cases hr : r.lookup k with
  | none => simp
  | some ex =>
    cases ho : opts.OnConflict with
    | none =>
      cases hp : opts.PreferFirst <;> simp [hr]
    | some f =>
      by_cases hf : f itemType k (wrap ex) (wrap v) = true <;> simp [hf, hr]

/-- What a `mergeMap` case for networks, volumes or configs leaves under each name. -/
theorem mergeMap_lookup {V : Type} (opts : MergeOptions) (itemType : String)
    (wrap : V → ConflictItem) (aMap bMap : GoMap V) (k : String) :
    (mergeMap opts itemType wrap aMap bMap).lookup k =
      match bMap.lookup k with
      | none => aMap.lookup k
      | some v => some (overlayChoice opts itemType wrap k (aMap.lookup k) v) := by
  unfold mergeMap
  rw [GoMap.lookup_eq_dlookup k bMap]
  cases hv : bMap.entries.dlookup k with
  | none =>
    have hk : k ∉ bMap.entries.keys := List.dlookup_eq_none.1 hv
    have := foldl_look_of_not_mem (fun (s : StrMap V) k => s.lookup k)
      (overlayStep opts itemType wrap) (overlayStep_lookup_ne opts itemType wrap)
      bMap.entries k hk (mapsCopy ∅ aMap)
    exact this.trans (mapsCopy_empty_lookup aMap k)
  | some v =>
    obtain ⟨pre, post, _, hpre, hres⟩ :=
      foldl_look_of_mem (fun (s : StrMap V) k => s.lookup k)
        (overlayStep opts itemType wrap) (overlayStep_lookup_ne opts itemType wrap)
        bMap.entries bMap.entries_nodupKeys k v hv (mapsCopy ∅ aMap)
    rw [hres, overlayStep_lookup_self, hpre, mapsCopy_empty_lookup]

/-- Conflict outcome of a `mergeMap` case for a name held by both maps: the handler decides
when there is one, `PreferFirst` decides otherwise. -/
theorem mergeMap_lookup_both {V : Type} (opts : MergeOptions) (itemType : String)
    (wrap : V → ConflictItem) (aMap bMap : GoMap V) (n : String) (ea eb : V)
    (ha : aMap.lookup n = some ea) (hb : bMap.lookup n = some eb) :
    (mergeMap opts itemType wrap aMap bMap).lookup n =
      some (match opts.OnConflict with
            | some onConflict => if onConflict itemType n (wrap ea) (wrap eb) then eb else ea
            | none => if opts.PreferFirst then ea else eb) := by
  rw [mergeMap_lookup, hb, ha]
  unfold overlayChoice
  cases opts.OnConflict <;> rfl

/-- A conflict of a `mergeMap` case ends with one of the two entities as a whole. -/
theorem mergeMap_lookup_both_mem {V : Type} (opts : MergeOptions) (itemType : String)
    (wrap : V → ConflictItem) (aMap bMap : GoMap V) (n : String) (ea eb : V)
    (ha : aMap.lookup n = some ea) (hb : bMap.lookup n = some eb) :
    (mergeMap opts itemType wrap aMap bMap).lookup n = some ea ∨
      (mergeMap opts itemType wrap aMap bMap).lookup n = some eb := by
  rw [mergeMap_lookup_both opts itemType wrap aMap bMap n ea eb ha hb]
  cases opts.OnConflict with
  | none => cases opts.PreferFirst <;> simp
  | some f =>
    by_cases hf : f itemType n (wrap ea) (wrap eb) = true <;> simp [hf]

/-- Names and untouched entries of a `mergeMap` case: the result holds a name exactly when
one of the two maps does, and a name held by one map only keeps that map's entity. -/
theorem mergeMap_names {V : Type} (opts : MergeOptions) (itemType : String)
    (wrap : V → ConflictItem) (aMap bMap : GoMap V) (n : String) :
    (((mergeMap opts itemType wrap aMap bMap).lookup n).isSome ↔
        (aMap.lookup n).isSome ∨ (bMap.lookup n).isSome) ∧
      (bMap.lookup n = none → (mergeMap opts itemType wrap aMap bMap).lookup n = aMap.lookup n) ∧
      (aMap.lookup n = none → (mergeMap opts itemType wrap aMap bMap).lookup n = bMap.lookup n) := by
  rw [mergeMap_lookup]
  cases hb : bMap.lookup n with
  | none => simp
  | some eb =>
    refine ⟨by simp, by simp, ?_⟩
    intro ha
    simp [ha, overlayChoice]

theorem serviceStep_lookup_ne (opts : MergeOptions) (st : StrMap Service × Heap)
    (e : Sigma (fun _ : String => Service)) (k : String) (hk : k ≠ e.1) :
    (serviceStep opts st e).1.lookup k = st.1.lookup k := by
  unfold serviceStep
  cases st.1.lookup e.1 with
  | none => exact AList.lookup_insert_ne hk
  | some ex =>
    simp only
    split_ifs
    · exact AList.lookup_insert_ne hk
    · exact AList.lookup_insert_ne hk
    · rfl

theorem serviceStep_lookup_self (opts : MergeOptions) (st : StrMap Service × Heap)
    (k : String) (v : Service) :
    (serviceStep opts st ⟨k, v⟩).1.lookup k =
      some (serviceChoice opts st.2 k (st.1.lookup k) v) := by
  unfold serviceStep serviceChoice
  cases hr : st.1.lookup k with
  | none => simp
  | some ex =>
    simp only
    split_ifs
    · exact AList.lookup_insert _
    · exact AList.lookup_insert _
    · exact hr

/-- A name that `b.Services` does not hold keeps the entry copied from `a.Services`. -/
theorem serviceLoop_lookup_of_not_mem (opts : MergeOptions) (h : Heap) (a b : DockerCompose)
    (k : String) (hb : b.Services.lookup k = none) :
    (serviceLoop opts h a b.Services.entries).1.lookup k = a.Services.lookup k := by
  rw [GoMap.lookup_eq_dlookup] at hb
  have hk : k ∉ b.Services.entries.keys := List.dlookup_eq_none.1 hb
  have := foldl_look_of_not_mem (fun (s : StrMap Service × Heap) k => s.1.lookup k)
    (serviceStep opts) (serviceStep_lookup_ne opts) b.Services.entries k hk
    (mapsCopy ∅ a.Services, h)
  exact this.trans (mapsCopy_empty_lookup a.Services k)

/-- A name that `b.Services` holds gets the outcome of its own iteration, which found the
entry copied from `a.Services` (if any) and the heap left by the iterations before it. -/
theorem serviceLoop_lookup_of_mem (opts : MergeOptions) (h : Heap) (a b : DockerCompose)
    (k : String) (sb : Service) (hb : b.Services.lookup k = some sb) :
    ∃ pre post, b.Services.entries = pre ++ ⟨k, sb⟩ :: post ∧
      (serviceLoop opts h a b.Services.entries).1.lookup k =
        some (serviceChoice opts (serviceLoop opts h a pre).2 k (a.Services.lookup k) sb) := by
  rw [GoMap.lookup_eq_dlookup] at hb
  obtain ⟨pre, post, hsplit, hpre, hres⟩ :=
    foldl_look_of_mem (fun (s : StrMap Service × Heap) k => s.1.lookup k)
      (serviceStep opts) (serviceStep_lookup_ne opts)
      b.Services.entries b.Services.entries_nodupKeys k sb hb (mapsCopy ∅ a.Services, h)
  refine ⟨pre, post, hsplit, ?_⟩
  unfold serviceLoop
  rw [hres, serviceStep_lookup_self, hpre, mapsCopy_empty_lookup]

/-- Names and untouched entries of the service loop. -/
theorem serviceLoop_names (opts : MergeOptions) (h : Heap) (a b : DockerCompose) (n : String) :
    (((serviceLoop opts h a b.Services.entries).1.lookup n).isSome ↔
        (a.Services.lookup n).isSome ∨ (b.Services.lookup n).isSome) ∧
      (b.Services.lookup n = none →
        (serviceLoop opts h a b.Services.entries).1.lookup n = a.Services.lookup n) ∧
      (a.Services.lookup n = none →
        (serviceLoop opts h a b.Services.entries).1.lookup n = b.Services.lookup n) := by
  cases hb : b.Services.lookup n with
  | none =>
    rw [serviceLoop_lookup_of_not_mem opts h a b n hb]
    simp
  | some sb =>
    obtain ⟨pre, post, _, hres⟩ := serviceLoop_lookup_of_mem opts h a b n sb hb
    rw [hres]
    refine ⟨by simp, by simp, ?_⟩
    intro ha
    simp [ha, serviceChoice]

/-- The document and heap that `combineDockerCompose` returns for two documents. -/
theorem combine_some_some (cfg : Options) (h : Heap) (a b : DockerCompose)
    (opts : MergeOptions) :
    combineDockerCompose cfg h (some a) (some b) opts =
      (.ok { Version :=
               if opts.PreferFirst then (if a.Version = "" then b.Version else a.Version)
               else (if b.Version = "" then a.Version else b.Version),
             Services := some (serviceLoop opts h a b.Services.entries).1,
             Networks := some (mergeMap opts "network" ConflictItem.network a.Networks b.Networks),
             Volumes := some (mergeMap opts "volume" ConflictItem.volume a.Volumes b.Volumes),
             Secrets := some
               (match handleSecrets cfg a.Secrets b.Secrets with
                | .error _ => ∅
                | .ok newSecrets => newSecrets),
             Configs := some (mergeMap opts "config" ConflictItem.config a.Configs b.Configs) },
       (serviceLoop opts h a b.Services.entries).2) := rfl

/-! ## The loops of `handleSecrets` -/

/-- What `handleSecrets` leaves under each name: b's rewritten entry when b holds the name,
otherwise a's rewritten entry when a holds it. -/
theorem handleSecrets_lookup (cfg : Options) (a b : GoMap Secret) :
    ∃ r, handleSecrets cfg a b = .ok r ∧
      ∀ name, r.lookup name =
        match b.lookup name with
        | some s => some (rewriteSecret cfg s)
        | none => (a.lookup name).map (rewriteSecret cfg) := by
  refine ⟨_, rfl, ?_⟩
  intro name
  rw [foldl_insert_lookup (rewriteSecret cfg) b.entries b.entries_nodupKeys,
    foldl_insert_lookup (rewriteSecret cfg) a.entries a.entries_nodupKeys,
    GoMap.lookup_eq_dlookup name b, GoMap.lookup_eq_dlookup name a]
  cases b.entries.dlookup name with
  | some s => rfl
  | none => cases a.entries.dlookup name <;> rfl

/-- The file path of a rewritten secret. -/
theorem rewriteSecret_file (cfg : Options) (s : Secret) :
    (rewriteSecret cfg s).File =
      if s.File = "" then ""
      else filepathJoin [cfg.ProjectPath, cfg.Output, "config", filepathBase s.File] := by
  unfold rewriteSecret
  by_cases hf : s.File = "" <;> simp [hf]

/-! ## The in-place map merge of `mergeServices` -/

theorem storeLoop_next (p : Nat) (l : List (Sigma (fun _ : String => String))) (h0 : Heap) :
    (l.foldl (fun hh e => hh.store p e.1 e.2) h0).next = h0.next := by
  induction l generalizing h0 with
  | nil => rfl
  | cons e l ih => rw [List.foldl_cons, ih]; rfl

theorem storeLoop_frame (p q : Nat) (hq : q ≠ p)
    (l : List (Sigma (fun _ : String => String))) (h0 : Heap) :
    (l.foldl (fun hh e => hh.store p e.1 e.2) h0).cells q = h0.cells q := by
  induction l generalizing h0 with
  | nil => rfl
  | cons e l ih =>
    rw [List.foldl_cons, ih]
    exact Function.update_noteq hq _ _

/-- Storing every entry of a list with distinct keys into the map at `p` overlays that map
with the list. -/
theorem storeLoop_lookup (p : Nat) (l : List (Sigma (fun _ : String => String)))
    (nd : l.NodupKeys) (h0 : Heap) (k : String) :
    ((l.foldl (fun hh e => hh.store p e.1 e.2) h0).cells p).lookup k =
      match l.dlookup k with
      | some v => some v
      | none => (h0.cells p).lookup k := by
  have hstep : ∀ (s : Heap) (e : Sigma (fun _ : String => String)) (k : String), k ≠ e.1 →
      ((s.store p e.1 e.2).cells p).lookup k = (s.cells p).lookup k := by
    intro s e k hk
    simp only [Heap.store, Function.update_same]
    exact AList.lookup_insert_ne hk
  cases hv : l.dlookup k with
  | none =>
    have hk : k ∉ l.keys := List.dlookup_eq_none.1 hv
    exact foldl_look_of_not_mem (fun (s : Heap) k => (s.cells p).lookup k) _ hstep l k hk h0
  | some v =>
    obtain ⟨pre, post, _, _, hres⟩ :=
      foldl_look_of_mem (fun (s : Heap) k => (s.cells p).lookup k) _ hstep l nd k v hv h0
    rw [hres]
    simp only [Heap.store, Function.update_same]
    exact AList.lookup_insert _

theorem mergeStringMap_next_le (h : Heap) (dst src : MapRef) :
    h.next ≤ (mergeStringMap h dst src).2.next := by
  unfold mergeStringMap
  split_ifs
  · cases dst with
    | none => simp [storeLoop_next, Heap.alloc]
    | some p => simp [storeLoop_next]
  · exact le_refl _

/-- The map merge writes only into its destination or into a fresh map. -/
theorem mergeStringMap_frame (h : Heap) (dst src : MapRef) (q : Nat)
    (hq : dst ≠ some q) (hlt : q < h.next) :
    (mergeStringMap h dst src).2.cells q = h.cells q := by
  unfold mergeStringMap
  split_ifs
  · cases dst with
    | none =>
      simp only [Heap.alloc]
      rw [storeLoop_frame _ _ (Nat.ne_of_lt hlt)]
      exact Function.update_noteq (Nat.ne_of_lt hlt) _ _
    | some p =>
      simp only
      have hne : q ≠ p := fun hqp => hq (by rw [hqp])
      rw [storeLoop_frame _ _ hne]
  · rfl

/-- The reference the map merge returns is its destination, or a fresh map when the
destination was `nil` and the source had entries. -/
theorem mergeStringMap_ref (h : Heap) (dst src : MapRef) :
    (mergeStringMap h dst src).1 = dst ∨
      (dst = none ∧ (mergeStringMap h dst src).1 = some h.next ∧
        (mergeStringMap h dst src).2.next = h.next + 1) := by
  unfold mergeStringMap
  split_ifs
  · cases dst with
    | none => right; simp [storeLoop_next, Heap.alloc]
    | some p => left; rfl
  · left; rfl

/-- Contents of the merged map: the source's value where the source has the key, the
destination's former value elsewhere. -/
theorem mergeStringMap_lookup (h : Heap) (dst src : MapRef) (hsrc : h.valid src = true)
    (k : String) :
    ((mergeStringMap h dst src).2.deref (mergeStringMap h dst src).1).lookup k =
      match (h.deref src).lookup k with
      | some v => some v
      | none => (h.deref dst).lookup k := by
  unfold mergeStringMap
  split_ifs with hlen
  · cases dst with
    | some p =>
      simp only [Heap.deref]
      rw [storeLoop_lookup p _ (AList.nodupKeys _)]
      rfl
    | none =>
      have hsame : (h.alloc).2.deref src = h.deref src := by
        cases src with
        | none => rfl
        | some q =>
          have hq : q < h.next := by simpa [Heap.valid] using hsrc
          simp only [Heap.deref, Heap.alloc]
          exact Function.update_noteq (Nat.ne_of_lt hq) _ _
      simp only [hsame]
      simp only [Heap.deref]
      rw [storeLoop_lookup _ _ (AList.nodupKeys _)]
      simp only [Heap.alloc, Function.update_same]
      rfl
  · have hnil : (h.deref src).entries = [] := by
      cases hl : (h.deref src).entries with
      | nil => rfl
      | cons x xs => simp [hl] at hlen
    have hnone : (h.deref src).lookup k = none := by
      unfold AList.lookup
      rw [hnil]
      rfl
    rw [hnone]

/-- Merging a map into itself keeps its reference and the contents of every map. -/
theorem mergeStringMap_self (h : Heap) (r : MapRef) :
    (mergeStringMap h r r).1 = r ∧
      ∀ q k, ((mergeStringMap h r r).2.cells q).lookup k = (h.cells q).lookup k := by
  unfold mergeStringMap
  split_ifs with hlen
  · cases r with
    | none => simp [Heap.deref] at hlen
    | some p =>
      refine ⟨rfl, ?_⟩
      intro q k
      simp only [Heap.deref]
      by_cases hq : q = p
      · subst hq
        rw [storeLoop_lookup q _ (AList.nodupKeys _)]
        unfold AList.lookup
        cases List.dlookup k (h.cells q).entries <;> rfl
      · rw [storeLoop_frame _ _ hq]
  · exact ⟨rfl, fun _ _ => rfl⟩

/-- A map that the map merge does not write keeps its contents. -/
theorem mergeStringMap_deref_frame (h : Heap) (dst src r : MapRef)
    (hv : h.valid r = true) (hap : apart dst r = true) :
    (mergeStringMap h dst src).2.deref r = h.deref r := by
  cases r with
  | none => rfl
  | some q =>
    have hq : q < h.next := by simpa [Heap.valid] using hv
    have hne : dst ≠ some q := by
      intro hd
      rw [hd] at hap
      simp [apart] at hap
    exact mergeStringMap_frame h dst src q hne hq

theorem valid_of_next_le (h h2 : Heap) (r : MapRef) (hle : h.next ≤ h2.next)
    (hv : h.valid r = true) : h2.valid r = true := by
  cases r with
  | none => rfl
  | some q =>
    have hq : q < h.next := by simpa [Heap.valid] using hv
    simpa [Heap.valid] using Nat.lt_of_lt_of_le hq hle

theorem mergeServices_environment_ref (h : Heap) (a b : Service) :
    (mergeServices h a b).1.Environment = (mergeStringMap h a.Environment b.Environment).1 := by
  simp only [mergeServices, apply_ite Service.Environment, ite_self]

theorem mergeServices_labels_ref (h : Heap) (a b : Service) :
    (mergeServices h a b).1.Labels =
      (mergeStringMap (mergeStringMap h a.Environment b.Environment).2 a.Labels b.Labels).1 := by
  simp only [mergeServices, apply_ite Service.Labels, apply_ite Service.Environment, ite_self]

theorem mergeServices_heap (h : Heap) (a b : Service) :
    (mergeServices h a b).2 =
      (mergeStringMap (mergeStringMap h a.Environment b.Environment).2 a.Labels b.Labels).2 := by
  simp only [mergeServices, apply_ite Service.Labels, apply_ite Service.Environment, ite_self]

/-- The ports of a merged service: a's ports followed by b's. -/
theorem mergeServices_ports (h : Heap) (a b : Service) :
    (mergeServices h a b).1.Ports = a.Ports ++ b.Ports := by
  simp only [mergeServices, apply_ite Service.Ports, ite_self]
  cases hb : b.Ports with
  | nil => simp
  | cons x xs => simp

/-- The volumes of a merged service: a's volumes followed by b's. -/
theorem mergeServices_volumes (h : Heap) (a b : Service) :
    (mergeServices h a b).1.Volumes = a.Volumes ++ b.Volumes := by
  simp only [mergeServices, apply_ite Service.Volumes, ite_self]
  cases hb : b.Volumes with
  | nil => simp
  | cons x xs => simp

/-! ## The merge loop of `Build` -/

theorem foldl_mergeStep_ok (cfg : Options) (projects : List DockerCompose)
    (st : Except String DockerCompose × Heap) (hst : ∃ d h', st = (.ok d, h')) :
    ∃ d h', projects.foldl (mergeStep cfg) st = (.ok d, h') := by
  induction projects generalizing st with
  | nil => exact hst
  | cons s rest ih =>
    obtain ⟨d, h', rfl⟩ := hst
    rw [List.foldl_cons]
    apply ih
    exact ⟨_, _, combine_some_some cfg h' d s buildMergeOpts⟩

/-- The merge loop of `Build` never fails. -/
theorem mergeAll_ok (cfg : Options) (h : Heap) (base : DockerCompose)
    (projects : List DockerCompose) :
    ∃ d h', mergeAll cfg h base projects = (.ok d, h') :=
  foldl_mergeStep_ok cfg projects _ ⟨base, h, rfl⟩

/-- After at least one project document, every secret of the store is a rewritten one. -/
theorem mergeAll_secrets_rewritten (cfg : Options) (h : Heap) (base : DockerCompose)
    (projects : List DockerCompose) (hne : projects ≠ []) :
    ∃ d h', mergeAll cfg h base projects = (.ok d, h') ∧
      ∀ name s, d.Secrets.lookup name = some s → ∃ s0, s = rewriteSecret cfg s0 := by
  obtain ⟨init, last, rfl⟩ : ∃ init last, projects = init ++ [last] :=
    ⟨projects.dropLast, projects.getLast hne, (List.dropLast_append_getLast hne).symm⟩
  obtain ⟨prev, h1, hprev⟩ := mergeAll_ok cfg h base init
  have hstep : mergeAll cfg h base (init ++ [last]) =
      combineDockerCompose cfg h1 (some prev) (some last) buildMergeOpts := by
    unfold mergeAll at hprev ⊢
    rw [List.foldl_append, hprev]
    rfl
  rw [hstep, combine_some_some]
  refine ⟨_, _, rfl, ?_⟩
  intro name s hs
  obtain ⟨r, hr, hlook⟩ := handleSecrets_lookup cfg prev.Secrets last.Secrets
  rw [hr] at hs
  have hs2 : r.lookup name = some s := hs
  rw [hlook name] at hs2
  cases hb : last.Secrets.lookup name with
  | some s0 =>
    rw [hb] at hs2
    exact ⟨s0, (Option.some.inj hs2).symm⟩
  | none =>
    rw [hb] at hs2
    cases ha : prev.Secrets.lookup name with
    | none => rw [ha] at hs2; cases hs2
    | some s0 =>
      rw [ha] at hs2
      exact ⟨s0, (Option.some.inj hs2).symm⟩

/-- Once the configuration is valid and the base document has been loaded, the document
that `Build` stores for writing is the result of the merge loop over the base document and
the project documents that `GetServices` loaded. -/
theorem build_stores_mergeAll (ext : Collaborators) (dc : DockerComposeCompiler) (w : World)
    (baseCompose : DockerCompose) (hp : dc.Config.ProjectPath ≠ "") (ho : dc.Config.Output ≠ "")
    (hbase : (ReadFile ext w (dc.Config.ProjectPath ++ "/" ++ dc.Config.BasePath)).1
      = .ok baseCompose) :
    ∃ servicesCompose w2 d h',
      GetServices ext dc.Config
          (ReadFile ext w (dc.Config.ProjectPath ++ "/" ++ dc.Config.BasePath)).2
        = (.ok servicesCompose, w2) ∧
      mergeAll dc.Config w2.heap baseCompose servicesCompose = (.ok d, h') ∧
      (Build ext dc w).2.1.Store = some d := by
  obtain ⟨d, h', hd⟩ := mergeAll_ok dc.Config
    (GetServices ext dc.Config
      (ReadFile ext w (dc.Config.ProjectPath ++ "/" ++ dc.Config.BasePath)).2).2.heap
    baseCompose
    (dc.Config.Projects.foldl (getServicesStep ext dc.Config)
      ([], (ReadFile ext w (dc.Config.ProjectPath ++ "/" ++ dc.Config.BasePath)).2)).1
  refine ⟨_, _, d, h', rfl, hd, ?_⟩
  unfold Build
  simp only [if_neg hp, if_neg ho, hbase]
  simp only [GetServices] at hd ⊢
  rw [hd]

/-- For a request whose action is `merge`, `Execute` answers `Success` without an error,
whatever `Merge` returned. -/
theorem execute_merge_result (ext : Collaborators) (w : World) (body : String)
    (request : ExecutionRequestBody) (hreq : ext.jsonUnmarshal body = .ok request)
    (hact : request.Options.Action = "merge") :
    (Execute ext w body).1 = ("Success", none) := by
  unfold Execute
  rw [hreq]
  simp [hact]

/-! ## Rewriting a secret twice -/

theorem takeWhile_append_stop {α : Type} (p : α → Bool) (l1 l2 : List α) (a : α)
    (h1 : ∀ x ∈ l1, p x = true) (ha : p a = false) :
    (l1 ++ a :: l2).takeWhile p = l1 := by
  rw [List.takeWhile_append_of_pos h1, List.takeWhile_cons_of_neg (by simp [ha])]
  simp

/-- The base name of a path that ends in `/` and an ordinary file name is that name. -/
theorem filepathBase_append_ordinary (D f : String) (hf : ordinaryName f = true) :
    filepathBase (D ++ "/" ++ f) = f := by
  have hns := ordinaryName_no_slash f hf
  have hfd : f.data ≠ [] := fun h => ordinaryName_ne_empty f hf (String.ext h)
  have hdata : (D ++ "/" ++ f).data = D.data ++ '/' :: f.data := by
    simp [String.data_append]
  have hne : D ++ "/" ++ f ≠ "" := by
    apply string_ne_empty_of_data
    rw [hdata]
    simp
  have hrev : (D ++ "/" ++ f).data.reverse = f.data.reverse ++ '/' :: D.data.reverse := by
    rw [hdata]
    simp
  have hall : ∀ x ∈ f.data.reverse, decide (x ≠ '/') = true := by
    intro x hx
    have hx2 : x ∈ f.data := List.mem_reverse.1 hx
    simpa using fun hxs : x = '/' => hns (hxs ▸ hx2)
  have hdrop : (D ++ "/" ++ f).data.reverse.dropWhile (fun c => decide (c = '/'))
      = (D ++ "/" ++ f).data.reverse := by
    rw [hrev]
    cases hr : f.data.reverse with
    | nil => exact absurd (List.reverse_eq_nil_iff.1 hr) hfd
    | cons x xs =>
      have hx : x ≠ '/' := by
        have := hall x (by rw [hr]; exact List.mem_cons_self _ _)
        simpa using this
      simp [List.dropWhile, hx]
  unfold filepathBase
  rw [if_neg hne]
  simp only [hdrop, List.reverse_reverse]
  rw [hrev, takeWhile_append_stop _ _ _ _ hall (by simp)]
  simp only [List.reverse_reverse]
  rw [if_neg hfd]

/-- A base name other than `.`, `..` and the separator is an ordinary file name. -/
theorem filepathBase_ordinary (p : String) (h1 : filepathBase p ≠ ".")
    (h2 : filepathBase p ≠ "..") (h3 : filepathBase p ≠ "/") :
    ordinaryName (filepathBase p) = true := by
  by_cases hp : p = ""
  · exact absurd (by simp [filepathBase, hp]) h1
  · have key : ∃ last : List Char, (∀ c ∈ last, c ≠ '/') ∧
        filepathBase p = if last = [] then "/" else String.mk last := by
      refine ⟨(((p.data.reverse.dropWhile (fun c => decide (c = '/'))).reverse).reverse.takeWhile
        (fun c => decide (c ≠ '/'))).reverse, ?_, ?_⟩
      · intro c hc
        have hc2 := List.mem_takeWhile_imp (List.mem_reverse.1 hc)
        simpa using hc2
      · unfold filepathBase
        rw [if_neg hp]
    obtain ⟨last, hns, hbase⟩ := key
    by_cases hl : last = []
    · rw [hbase, if_pos hl] at h3
      exact absurd rfl h3
    · rw [hbase, if_neg hl] at h1 h2 ⊢
      have hne : String.mk last ≠ "" := by
        apply string_ne_empty_of_data
        exact hl
      have hslash : '/' ∉ (String.mk last).data := fun hin => hns '/' hin rfl
      simp only [ordinaryName, Bool.and_eq_true, decide_eq_true_eq, Bool.not_eq_true',
        List.contains_eq_any_beq, List.any_eq_false, beq_iff_eq]
      exact ⟨⟨⟨hne, h1⟩, h2⟩, fun x hx hxs => hslash (hxs ▸ hx)⟩

/-- The file path of a secret that has been rewritten once is left as it is by a second
rewriting, when the original path ends in an ordinary file name. -/
theorem rewriteSecret_idem (cfg : Options) (s : Secret) (hfile : s.File ≠ "")
    (hord : ordinaryName (filepathBase s.File) = true) :
    rewriteSecret cfg (rewriteSecret cfg s) = rewriteSecret cfg s := by
  have hjoin := filepathJoin_config_ordinary cfg.ProjectPath cfg.Output (filepathBase s.File) hord
  have hfile1 : (rewriteSecret cfg s).File =
      filepathJoin [cfg.ProjectPath, cfg.Output, "config"] ++ "/" ++ filepathBase s.File := by
    rw [rewriteSecret_file, if_neg hfile, hjoin]
  have hne : (rewriteSecret cfg s).File ≠ "" := by
    rw [hfile1]
    apply string_ne_empty_of_data
    simp [String.data_append]
  have hbase : filepathBase (rewriteSecret cfg s).File = filepathBase s.File := by
    rw [hfile1]
    exact filepathBase_append_ordinary _ _ hord
  have hfile2 : (rewriteSecret cfg (rewriteSecret cfg s)).File = (rewriteSecret cfg s).File := by
    rw [rewriteSecret_file cfg (rewriteSecret cfg s), if_neg hne, hbase, rewriteSecret_file,
      if_neg hfile]
  have hrest : ∀ t : Secret, (rewriteSecret cfg t).External = t.External ∧
      (rewriteSecret cfg t).Labels = t.Labels ∧ (rewriteSecret cfg t).Name = t.Name := by
    intro t
    unfold rewriteSecret
    by_cases ht : t.File = "" <;> simp [ht]
  obtain ⟨he, hl, hn⟩ := hrest (rewriteSecret cfg s)
  cases hr : rewriteSecret cfg s with
  | mk File External Labels Name =>
    cases hr2 : rewriteSecret cfg (rewriteSecret cfg s) with
    | mk File2 External2 Labels2 Name2 =>
      rw [hr] at hfile2 he hl hn
      rw [hr] at hr2
      rw [hr2] at hfile2 he hl hn
      simp only at hfile2 he hl hn
      rw [hr2, hfile2, he, hl, hn]

/-- The secret that `combineDockerCompose` leaves under a name: b's rewritten entry when b
holds the name, otherwise a's rewritten entry when a holds it. -/
theorem combine_secret_lookup (cfg : Options) (h : Heap) (a b : DockerCompose)
    (opts : MergeOptions) (name : String) :
    ∃ d h', combineDockerCompose cfg h (some a) (some b) opts = (.ok d, h') ∧
      d.Secrets.lookup name =
        match b.Secrets.lookup name with
        | some t => some (rewriteSecret cfg t)
        | none => (a.Secrets.lookup name).map (rewriteSecret cfg) := by
  obtain ⟨r, hr, hlook⟩ := handleSecrets_lookup cfg a.Secrets b.Secrets
  refine ⟨_, _, combine_some_some cfg h a b opts, ?_⟩
  rw [hr]
  exact hlook name

/-- A secret that has its rewritten form in the store keeps it through every further
project document that does not declare the name. -/
theorem foldl_mergeStep_keeps_secret (cfg : Options) (s : Secret) (name : String)
    (hidem : rewriteSecret cfg (rewriteSecret cfg s) = rewriteSecret cfg s)
    (projects : List DockerCompose)
    (hnone : ∀ q ∈ projects, q.Secrets.lookup name = none)
    (d : DockerCompose) (h : Heap)
    (hd : d.Secrets.lookup name = some (rewriteSecret cfg s)) :
    ∃ d2 h2, projects.foldl (mergeStep cfg) (.ok d, h) = (.ok d2, h2) ∧
      d2.Secrets.lookup name = some (rewriteSecret cfg s) := by
  induction projects generalizing d h with
  | nil => exact ⟨d, h, rfl, hd⟩
  | cons p rest ih =>
    obtain ⟨d1, h1, hstep, hlook⟩ := combine_secret_lookup cfg h d p buildMergeOpts name
    rw [hnone p (List.mem_cons_self _ _), hd] at hlook
    rw [List.foldl_cons]
    have hms : mergeStep cfg (.ok d, h) p = (.ok d1, h1) := hstep
    rw [hms]
    apply ih (fun q hq => hnone q (List.mem_cons_of_mem _ hq))
    rw [hlook]
    simp [hidem]

/-! ## Secrets through the merge loop -/

/-- A staging directory path that is written in clean form is what joining gives. -/
theorem filepathJoin_staging_clean (r o : String) (h : stagingPathClean r o = true) :
    filepathJoin [r, o, "config"] = r ++ "/" ++ o ++ "/" ++ "config" := by
  simp only [stagingPathClean, Bool.and_eq_true, decide_eq_true_eq] at h
  obtain ⟨hr, hc⟩ := h
  have hjoin : filepathJoin [r, o, "config"] =
      filepathClean (r ++ "/" ++ o ++ "/" ++ "config") := by
    simp [filepathJoin, List.dropWhile, hr, String.intercalate, String.intercalate.go]
  rw [hjoin, hc]

/-- Rewriting keeps the external flag, the labels and the declared name of a secret. -/
theorem rewriteSecret_fields (cfg : Options) (s : Secret) :
    (rewriteSecret cfg s).External = s.External ∧ (rewriteSecret cfg s).Labels = s.Labels ∧
      (rewriteSecret cfg s).Name = s.Name := by
  unfold rewriteSecret
  by_cases hs : s.File = "" <;> simp [hs]

/-- A secret without a file is left as it is by rewriting. -/
theorem rewriteSecret_of_empty (cfg : Options) (s : Secret) (hs : s.File = "") :
    rewriteSecret cfg s = s := by
  unfold rewriteSecret
  cases s
  simp only at hs
  subst hs
  rfl

theorem rewriteSecret_iterate_empty (cfg : Options) (s : Secret) (hs : s.File = "") (k : Nat) :
    (rewriteSecret cfg)^[k] s = s := by
  induction k with
  | zero => rfl
  | succ k ih => rw [Function.iterate_succ_apply', ih, rewriteSecret_of_empty cfg s hs]

theorem rewriteSecret_iterate_ordinary (cfg : Options) (s : Secret) (hfile : s.File ≠ "")
    (hord : ordinaryName (filepathBase s.File) = true) (k : Nat) :
    (rewriteSecret cfg)^[k + 1] s = rewriteSecret cfg s := by
  induction k with
  | zero => rfl
  | succ k ih => rw [Function.iterate_succ_apply', ih, rewriteSecret_idem cfg s hfile hord]

/-- On an ordinary file name, and with the staging directory written in clean form, the
rewriting of the code is the rewriting that the specification words. -/
theorem rewriteSecret_eq_spec (cfg : Options) (s : Secret)
    (hclean : stagingPathClean cfg.ProjectPath cfg.Output = true)
    (hs : s.File = "" ∨ ordinaryName (filepathBase s.File) = true) :
    rewriteSecret cfg s = rewriteSecretSpec cfg.ProjectPath cfg.Output s := by
  by_cases hf : s.File = ""
  · unfold rewriteSecret rewriteSecretSpec
    simp [hf]
  · have hord : ordinaryName (filepathBase s.File) = true := hs.resolve_left hf
    have hpath : filepathJoin [cfg.ProjectPath, cfg.Output, "config", filepathBase s.File] =
        cfg.ProjectPath ++ "/" ++ cfg.Output ++ "/" ++ "config" ++ "/" ++ filepathBase s.File := by
      rw [filepathJoin_config_ordinary _ _ _ hord, filepathJoin_staging_clean _ _ hclean]
    unfold rewriteSecret rewriteSecretSpec
    simp only [hf, ne_eq, not_false_eq_true, if_true, if_false, hpath]

/-- The secret that the merge loop leaves under a name is the one of the last document
that declares the name, rewritten once for every step since. -/
theorem foldl_mergeStep_secret (cfg : Options) (name : String) (ps : List DockerCompose)
    (d0 : DockerCompose) (h0 : Heap) (acc : Option Secret) (k0 : Nat)
    (hd0 : d0.Secrets.lookup name = acc.map ((rewriteSecret cfg)^[k0])) :
    ∃ d h' k, ps.foldl (mergeStep cfg) (.ok d0, h0) = (.ok d, h') ∧
      ((1 ≤ k0 ∨ ps ≠ []) → 1 ≤ k) ∧
      d.Secrets.lookup name =
        (ps.foldl
          (fun acc p =>
            match p.Secrets.lookup name with
            | some t => some t
            | none => acc) acc).map ((rewriteSecret cfg)^[k]) := by
  induction ps generalizing d0 h0 acc k0 with
  | nil => exact ⟨d0, h0, k0, rfl, fun h => h.resolve_right (by simp), hd0⟩
  | cons p ps ih =>
    obtain ⟨d1, h1, hstep, hlook⟩ := combine_secret_lookup cfg h0 d0 p buildMergeOpts name
    have hms : mergeStep cfg (.ok d0, h0) p = (.ok d1, h1) := hstep
    rw [List.foldl_cons, List.foldl_cons, hms]
    cases hp : p.Secrets.lookup name with
    | some t =>
      rw [hp] at hlook
      obtain ⟨d, h', k, hfold, hk, hres⟩ := ih d1 h1 (some t) 1 (by rw [hlook]; rfl)
      exact ⟨d, h', k, hfold, fun _ => hk (Or.inl (le_refl 1)), hres⟩
    | none =>
      rw [hp, hd0] at hlook
      obtain ⟨d, h', k, hfold, hk, hres⟩ := ih d1 h1 acc (k0 + 1)
        (by rw [hlook, Option.map_map, Function.iterate_succ'])
      exact ⟨d, h', k, hfold, fun _ => hk (Or.inl (Nat.le_add_left 1 k0)), hres⟩

/-- The secrets of the store after the merge loop of `Build`. -/
theorem mergeAll_secret (cfg : Options) (h : Heap) (base : DockerCompose)
    (projects : List DockerCompose) (name : String) :
    ∃ d h' k, mergeAll cfg h base projects = (.ok d, h') ∧ (projects ≠ [] → 1 ≤ k) ∧
      d.Secrets.lookup name =
        (lastDeclared base projects name).map ((rewriteSecret cfg)^[k]) := by
  obtain ⟨d, h', k, hfold, hk, hres⟩ :=
    foldl_mergeStep_secret cfg name projects base h (base.Secrets.lookup name) 0
      (by cases base.Secrets.lookup name <;> rfl)
  exact ⟨d, h', k, hfold, fun hne => hk (Or.inr hne), hres⟩

/-! ## The loop of `GetServices` -/

theorem GoMap.store_lookup_ne {V : Type} (m : GoMap V) (k k2 : String) (v : V) (hk : k2 ≠ k) :
    (m.store k v).lookup k2 = m.lookup k2 := by
  cases m with
  | none => rfl
  | some s => exact AList.lookup_insert_ne hk

theorem GoMap.store_lookup_self {V : Type} (m : GoMap V) (k : String) (v v0 : V)
    (hm : m.lookup k = some v0) : (m.store k v).lookup k = some v := by
  cases m with
  | none => cases hm
  | some s => exact AList.lookup_insert s

/-- Every iteration of the loop of `GetServices` keeps the documents collected so far. -/
theorem foldl_getServicesStep_extends (ext : Collaborators) (cfg : Options)
    (projects : List String) (st : List DockerCompose × World) :
    ∃ rest, (projects.foldl (getServicesStep ext cfg) st).1 = st.1 ++ rest := by
  induction projects generalizing st with
  | nil => exact ⟨[], by simp⟩
  | cons p ps ih =>
    rw [List.foldl_cons]
    obtain ⟨rest, hrest⟩ := ih (getServicesStep ext cfg st p)
    have hstep : ∃ one, (getServicesStep ext cfg st p).1 = st.1 ++ one := by
      unfold getServicesStep
      simp only
      split
      · exact ⟨[], by simp⟩
      · split
        · exact ⟨_, rfl⟩
        · exact ⟨_, rfl⟩
    obtain ⟨one, hone⟩ := hstep
    exact ⟨one ++ rest, by rw [hrest, hone, List.append_assoc]⟩

/-- The iteration of the loop of `GetServices` for a project whose document loads: the
document is appended, with the build context of the service named after the project set
when that service has a build spec. -/
theorem getServicesStep_loaded (ext : Collaborators) (cfg : Options)
    (st : List DockerCompose × World) (p : String) (doc : DockerCompose) (w1 : World)
    (hread : ReadFile ext st.2
      (filepathJoin [cfg.ProjectPath, cfg.ProjectFolder, p, "docker-compose.yml"])
        = (.ok doc, w1)) :
    ∃ doc2, getServicesStep ext cfg st p = (st.1 ++ [doc2], w1) ∧
      doc2.Version = doc.Version ∧ doc2.Networks = doc.Networks ∧
      doc2.Volumes = doc.Volumes ∧ doc2.Secrets = doc.Secrets ∧ doc2.Configs = doc.Configs ∧
      (∀ k, k ≠ (stringsSplitSlash p).getLastD "" →
        doc2.Services.lookup k = doc.Services.lookup k) ∧
      (∀ svc build, doc.Services.lookup ((stringsSplitSlash p).getLastD "") = some svc →
        svc.Build = some build →
        doc2.Services.lookup ((stringsSplitSlash p).getLastD "") =
          some { svc with
                 Build := some
                   { build with
                     Context := cfg.ProjectPath ++ "/" ++ cfg.ProjectFolder ++ "/" ++
                       (stringsSplitSlash p).getLastD "" } }) ∧
      (∀ svc, doc.Services.lookup ((stringsSplitSlash p).getLastD "") = some svc →
        svc.Build = none → ∀ k, doc2.Services.lookup k = doc.Services.lookup k) ∧
      (doc.Services.lookup ((stringsSplitSlash p).getLastD "") = none → doc2 = doc) := by
  unfold getServicesStep
  simp only [hread]
  cases hsvc : doc.Services.lookup ((stringsSplitSlash p).getLastD "") with
  | none =>
    refine ⟨doc, rfl, rfl, rfl, rfl, rfl, rfl, fun _ _ => rfl, ?_, ?_, fun _ => rfl⟩
    · intro svc build h
      cases h
    · intro svc h
      cases h
  | some svc0 =>
    refine ⟨_, rfl, rfl, rfl, rfl, rfl, rfl, ?_, ?_, ?_, ?_⟩
    · intro k hk
      exact GoMap.store_lookup_ne _ _ _ _ hk
    · intro svc build h hb
      cases h
      rw [GoMap.store_lookup_self _ _ _ _ hsvc]
      simp [CheckBuildContext, hb]
    · intro svc h hb k
      cases h
      by_cases hk : k = (stringsSplitSlash p).getLastD ""
      · subst hk
        rw [GoMap.store_lookup_self _ _ _ _ hsvc, hsvc]
        simp [CheckBuildContext, hb]
      · exact GoMap.store_lookup_ne _ _ _ _ hk
    · intro h
      cases h

/-! ## The document merger `combineDockerCompose` -/

/-- C1. Identity short-circuit: with the second document absent the call succeeds and
returns the first document as it is, and with the first document absent it returns the
second as it is; no map is written in either case. -/
theorem combine_identity_short_circuit (cfg : Options) (h : Heap) (a : DockerCompose)
    (opts : MergeOptions) :
    combineDockerCompose cfg h (some a) none opts = (.ok a, h) ∧
    combineDockerCompose cfg h none (some a) opts = (.ok a, h) :=
  ⟨rfl, rfl⟩

/-- C2. `combineDockerCompose` reports an error exactly when both documents are absent, and
returns a document exactly when at least one is present, whatever the options and the
conflict handler are. -/
theorem combine_error_iff_both_absent (cfg : Options) (h : Heap) (a b : Option DockerCompose)
    (opts : MergeOptions) :
    ((∃ msg, (combineDockerCompose cfg h a b opts).1 = .error msg) ↔ (a = none ∧ b = none)) ∧
    ((∃ d, (combineDockerCompose cfg h a b opts).1 = .ok d) ↔ (a ≠ none ∨ b ≠ none)) := by
  cases a with
  | none =>
    cases b with
    | none => simp [combineDockerCompose]
    | some b => simp [combineDockerCompose]
  | some a =>
    cases b with
    | none => simp [combineDockerCompose]
    | some b => simp [combine_some_some]

/-- C3, the input on which it fails: base and project document both declare `web`, each
with its own environment and label map.  Before the call the environment map of the base
document's `web` has no key `Y` and its label map no key `team`; after the call with the
options `Build` uses, the very same maps hold `Y: "2"` and `team: "core"`. -/
theorem combine_writes_into_first_input :
    (sampleHeap.deref sampleWebA.Environment).lookup "Y" = none ∧
    (sampleHeap.deref sampleWebA.Labels).lookup "team" = none ∧
    ((combineDockerCompose {} sampleHeap (some sampleDocA) (some sampleDocB)
        buildMergeOpts).2.deref sampleWebA.Environment).lookup "Y" = some "2" ∧
    ((combineDockerCompose {} sampleHeap (some sampleDocA) (some sampleDocB)
        buildMergeOpts).2.deref sampleWebA.Labels).lookup "team" = some "core" := by
  refine ⟨?_, ?_, ?_, ?_⟩ <;> decide

/-- C4. Service conflict resolution: for a name held by both documents and a handler that
is set, the handler is asked about ("service", name, a's service, b's service).  When it
answers false the result keeps a's service; when it answers true and `MergeServices` is
off the result holds b's service; when it answers true and `MergeServices` is on the result
holds `mergeServices` of a's and b's service, run on the heap left by the loop iterations
that came before this name. -/
theorem combine_service_conflict (cfg : Options) (h : Heap) (a b : DockerCompose)
    (opts : MergeOptions) (onConflict : String → String → ConflictItem → ConflictItem → Bool)
    (n : String) (sa sb : Service)
    (hh : opts.OnConflict = some onConflict)
    (ha : a.Services.lookup n = some sa) (hb : b.Services.lookup n = some sb) :
    ∃ d h', combineDockerCompose cfg h (some a) (some b) opts = (.ok d, h') ∧
      (onConflict "service" n (.service sa) (.service sb) = false →
        d.Services.lookup n = some sa) ∧
      (onConflict "service" n (.service sa) (.service sb) = true →
        opts.MergeServices = false → d.Services.lookup n = some sb) ∧
      (onConflict "service" n (.service sa) (.service sb) = true →
        opts.MergeServices = true →
        ∃ pre post, b.Services.entries = pre ++ ⟨n, sb⟩ :: post ∧
          d.Services.lookup n = some (mergeServices (serviceLoop opts h a pre).2 sa sb).1) := by
  refine ⟨_, _, combine_some_some cfg h a b opts, ?_, ?_, ?_⟩
  · intro hf
    obtain ⟨pre, post, _, hres⟩ := serviceLoop_lookup_of_mem opts h a b n sb hb
    show (serviceLoop opts h a b.Services.entries).1.lookup n = some sa
    rw [hres, ha]
    simp [serviceChoice, hh, hf]
  · intro hf hm
    obtain ⟨pre, post, _, hres⟩ := serviceLoop_lookup_of_mem opts h a b n sb hb
    show (serviceLoop opts h a b.Services.entries).1.lookup n = some sb
    rw [hres, ha]
    simp [serviceChoice, hh, hf, hm]
  · intro hf hm
    obtain ⟨pre, post, hsplit, hres⟩ := serviceLoop_lookup_of_mem opts h a b n sb hb
    refine ⟨pre, post, hsplit, ?_⟩
    show (serviceLoop opts h a b.Services.entries).1.lookup n = _
    rw [hres, ha]
    simp [serviceChoice, hh, hf, hm]

/-- C4, at the sample documents: both declare `web`, the default handler answers true and
services are merged. -/
theorem combine_service_conflict_witness :
    buildMergeOpts.OnConflict = some DefaultOnConflict ∧
    sampleDocA.Services.lookup "web" = some sampleWebA ∧
    sampleDocB.Services.lookup "web" = some sampleWebB ∧
    ∃ d h', combineDockerCompose {} sampleHeap (some sampleDocA) (some sampleDocB)
        buildMergeOpts = (.ok d, h') ∧
      ∃ pre post, sampleDocB.Services.entries = pre ++ ⟨"web", sampleWebB⟩ :: post ∧
        d.Services.lookup "web" =
          some (mergeServices (serviceLoop buildMergeOpts sampleHeap sampleDocA pre).2
            sampleWebA sampleWebB).1 := by
  refine ⟨rfl, rfl, rfl, ?_⟩
  obtain ⟨d, h', hd, _, _, hmerge⟩ :=
    combine_service_conflict {} sampleHeap sampleDocA sampleDocB buildMergeOpts
      DefaultOnConflict "web" sampleWebA sampleWebB rfl rfl rfl
  exact ⟨d, h', hd, hmerge rfl rfl⟩

/-- C5. No entry is lost or invented: in the services, networks, volumes and configs of the
result a name is present exactly when it is present in a or in b, a name that b does not
hold keeps a's entity, and a name that a does not hold gets b's entity. -/
theorem combine_names_union (cfg : Options) (h : Heap) (a b : DockerCompose)
    (opts : MergeOptions) :
    ∃ d h', combineDockerCompose cfg h (some a) (some b) opts = (.ok d, h') ∧
      (∀ n, ((d.Services.lookup n).isSome ↔
              (a.Services.lookup n).isSome ∨ (b.Services.lookup n).isSome) ∧
            (b.Services.lookup n = none → d.Services.lookup n = a.Services.lookup n) ∧
            (a.Services.lookup n = none → d.Services.lookup n = b.Services.lookup n)) ∧
      (∀ n, ((d.Networks.lookup n).isSome ↔
              (a.Networks.lookup n).isSome ∨ (b.Networks.lookup n).isSome) ∧
            (b.Networks.lookup n = none → d.Networks.lookup n = a.Networks.lookup n) ∧
            (a.Networks.lookup n = none → d.Networks.lookup n = b.Networks.lookup n)) ∧
      (∀ n, ((d.Volumes.lookup n).isSome ↔
              (a.Volumes.lookup n).isSome ∨ (b.Volumes.lookup n).isSome) ∧
            (b.Volumes.lookup n = none → d.Volumes.lookup n = a.Volumes.lookup n) ∧
            (a.Volumes.lookup n = none → d.Volumes.lookup n = b.Volumes.lookup n)) ∧
      (∀ n, ((d.Configs.lookup n).isSome ↔
              (a.Configs.lookup n).isSome ∨ (b.Configs.lookup n).isSome) ∧
            (b.Configs.lookup n = none → d.Configs.lookup n = a.Configs.lookup n) ∧
            (a.Configs.lookup n = none → d.Configs.lookup n = b.Configs.lookup n)) :=
  ⟨_, _, combine_some_some cfg h a b opts,
    fun n => serviceLoop_names opts h a b n,
    fun n => mergeMap_names opts "network" ConflictItem.network a.Networks b.Networks n,
    fun n => mergeMap_names opts "volume" ConflictItem.volume a.Volumes b.Volumes n,
    fun n => mergeMap_names opts "config" ConflictItem.config a.Configs b.Configs n⟩

/-- C6. Networks, volumes and configs are never structurally merged: for a name held by
both documents the result holds b's entity when the handler is set and answers true, a's
entity when it is set and answers false, and without a handler a's entity under
`PreferFirst` and b's entity otherwise; hence always one of the two entities as a whole. -/
theorem combine_entities_never_merged (cfg : Options) (h : Heap) (a b : DockerCompose)
    (opts : MergeOptions) :
    ∃ d h', combineDockerCompose cfg h (some a) (some b) opts = (.ok d, h') ∧
      (∀ n ea eb, a.Networks.lookup n = some ea → b.Networks.lookup n = some eb →
        d.Networks.lookup n =
          some (match opts.OnConflict with
                | some onConflict =>
                  if onConflict "network" n (.network ea) (.network eb) then eb else ea
                | none => if opts.PreferFirst then ea else eb) ∧
        (d.Networks.lookup n = some ea ∨ d.Networks.lookup n = some eb)) ∧
      (∀ n ea eb, a.Volumes.lookup n = some ea → b.Volumes.lookup n = some eb →
        d.Volumes.lookup n =
          some (match opts.OnConflict with
                | some onConflict =>
                  if onConflict "volume" n (.volume ea) (.volume eb) then eb else ea
                | none => if opts.PreferFirst then ea else eb) ∧
        (d.Volumes.lookup n = some ea ∨ d.Volumes.lookup n = some eb)) ∧
      (∀ n ea eb, a.Configs.lookup n = some ea → b.Configs.lookup n = some eb →
        d.Configs.lookup n =
          some (match opts.OnConflict with
                | some onConflict =>
                  if onConflict "config" n (.config ea) (.config eb) then eb else ea
                | none => if opts.PreferFirst then ea else eb) ∧
        (d.Configs.lookup n = some ea ∨ d.Configs.lookup n = some eb)) :=
  ⟨_, _, combine_some_some cfg h a b opts,
    fun n ea eb ha hb =>
      ⟨mergeMap_lookup_both opts "network" ConflictItem.network _ _ n ea eb ha hb,
       mergeMap_lookup_both_mem opts "network" ConflictItem.network _ _ n ea eb ha hb⟩,
    fun n ea eb ha hb =>
      ⟨mergeMap_lookup_both opts "volume" ConflictItem.volume _ _ n ea eb ha hb,
       mergeMap_lookup_both_mem opts "volume" ConflictItem.volume _ _ n ea eb ha hb⟩,
    fun n ea eb ha hb =>
      ⟨mergeMap_lookup_both opts "config" ConflictItem.config _ _ n ea eb ha hb,
       mergeMap_lookup_both_mem opts "config" ConflictItem.config _ _ n ea eb ha hb⟩⟩

/-- C6, at the sample documents: both declare network `net`, volume `data` and config
`app`; with the default handler the result holds the second document's entities. -/
theorem combine_entities_never_merged_witness :
    ∃ d h', combineDockerCompose {} sampleHeap (some sampleDocA) (some sampleDocB)
        buildMergeOpts = (.ok d, h') ∧
      d.Networks.lookup "net" = some { Driver := "overlay" } ∧
      d.Volumes.lookup "data" = some { Driver := "nfs" } ∧
      d.Configs.lookup "app" = some { File := "./override.conf" } := by
  obtain ⟨d, h', hd, hn, hv, hc⟩ :=
    combine_entities_never_merged {} sampleHeap sampleDocA sampleDocB buildMergeOpts
  exact ⟨d, h', hd, (hn "net" { Driver := "bridge" } { Driver := "overlay" } rfl rfl).1,
    (hv "data" { Driver := "local" } { Driver := "nfs" } rfl rfl).1,
    (hc "app" { File := "./app.conf" } { File := "./override.conf" } rfl rfl).1⟩

/-- C7. Version precedence: with `PreferFirst` the result's version is a's unless that is
empty, in which case it is b's; without `PreferFirst` it is b's unless that is empty, in
which case it is a's. -/
theorem combine_version_precedence (cfg : Options) (h : Heap) (a b : DockerCompose)
    (opts : MergeOptions) :
    ∃ d h', combineDockerCompose cfg h (some a) (some b) opts = (.ok d, h') ∧
      (opts.PreferFirst = true →
        d.Version = if a.Version ≠ "" then a.Version else b.Version) ∧
      (opts.PreferFirst = false →
        d.Version = if b.Version ≠ "" then b.Version else a.Version) := by
  refine ⟨_, _, combine_some_some cfg h a b opts, ?_, ?_⟩
  · intro hp
    by_cases hv : a.Version = "" <;> simp [hp, hv]
  · intro hp
    by_cases hv : b.Version = "" <;> simp [hp, hv]

/-- C8, the input on which it fails: a document that declares only a version, combined
with an absent document, comes back as it is, with all five collections absent. -/
theorem combine_short_circuit_keeps_absent_collections :
    ∃ d, (combineDockerCompose {} sampleHeap (some { Version := "3" }) none buildMergeOpts).1
        = .ok d ∧
      d.Services = none ∧ d.Networks = none ∧ d.Volumes = none ∧ d.Secrets = none ∧
      d.Configs = none :=
  ⟨_, rfl, rfl, rfl, rfl, rfl, rfl⟩

/-- C8, amended. When both documents are present the returned document has all five
collections initialized, whatever the inputs populated; when one document is absent the
returned document is the other input, with its collections as they were. -/
theorem combine_initializes_collections (cfg : Options) (h : Heap) (a b : DockerCompose)
    (opts : MergeOptions) :
    (∃ d h', combineDockerCompose cfg h (some a) (some b) opts = (.ok d, h') ∧
      d.Services.isSome ∧ d.Networks.isSome ∧ d.Volumes.isSome ∧ d.Secrets.isSome ∧
      d.Configs.isSome) ∧
    (combineDockerCompose cfg h (some a) none opts).1 = .ok a ∧
    (combineDockerCompose cfg h none (some b) opts).1 = .ok b :=
  ⟨⟨_, _, combine_some_some cfg h a b opts, rfl, rfl, rfl, rfl, rfl⟩, rfl, rfl⟩

/-! ## The secret merger `handleSecrets` -/

/-- C9, the inputs on which it fails.  The secret file `certs/..` has the base name `..`;
the reference sends it to `/app/build/config/..`, the code to `/app/build`, outside the
staging directory.  And with the project root written `/app/` the reference gives
`/app//build/config/creds.pem` where the code gives the cleaned
`/app/build/config/creds.pem`. -/
theorem handleSecrets_differs_from_spec :
    (∃ r s, handleSecrets sampleConfig sampleOddSecrets none = .ok r ∧
      r.lookup "up" = some s ∧ s.File = "/app/build" ∧
      (mergeSecretsSpec sampleConfig.ProjectPath sampleConfig.Output sampleOddSecrets none
          "up").map Secret.File = some "/app/build/config/.." ∧
      r.lookup "up" ≠
        mergeSecretsSpec sampleConfig.ProjectPath sampleConfig.Output sampleOddSecrets none
          "up") ∧
    (∃ r s, handleSecrets { ProjectPath := "/app/", Output := "build" } sampleSecrets none
        = .ok r ∧
      r.lookup "creds" = some s ∧ s.File = "/app/build/config/creds.pem" ∧
      (mergeSecretsSpec "/app/" "build" sampleSecrets none "creds").map Secret.File
        = some "/app//build/config/creds.pem") := by
  refine ⟨⟨_, _, rfl, rfl, by decide, by decide, ?_⟩, ⟨_, _, rfl, rfl, by decide, by decide⟩⟩
  intro heq
  have hfile := congrArg (Option.map Secret.File) heq
  exact absurd hfile (by decide)

/-- C9, amended. `handleSecrets` succeeds and its result is the overlay of a's rewritten
entries by b's rewritten entries: the names are the union, and under a name the result
holds the rewriting of b's entry, or of a's when b has none.  Rewriting keeps external
flag, labels and declared name and keeps an empty file path empty.  A non-empty file path
that ends in an ordinary file name is replaced by the staging directory (project root,
output folder and `config`, joined and cleaned) followed by `/` and that name; when the
staging directory is written in clean form, the result is under such a name exactly what
the reference definition `<project-root>/<output-folder>/config/<basename>` gives.  For
example `/secrets/creds.pem` with project root `/app` and output `build` becomes
`/app/build/config/creds.pem`. -/
theorem handleSecrets_refines_spec (cfg : Options) (a b : GoMap Secret) :
    (∃ r, handleSecrets cfg a b = .ok r ∧
      (∀ name, (r.lookup name).isSome ↔ (a.lookup name).isSome ∨ (b.lookup name).isSome) ∧
      (∀ name s0,
        (b.lookup name = some s0 ∨ (b.lookup name = none ∧ a.lookup name = some s0)) →
        ∃ s, r.lookup name = some s ∧ s.External = s0.External ∧ s.Labels = s0.Labels ∧
          s.Name = s0.Name ∧ (s0.File = "" → s.File = "") ∧
          (s0.File ≠ "" → ordinaryName (filepathBase s0.File) = true →
            s.File = filepathJoin [cfg.ProjectPath, cfg.Output, "config"] ++ "/" ++
              filepathBase s0.File)) ∧
      (stagingPathClean cfg.ProjectPath cfg.Output = true →
        ∀ name,
          (∀ s0, (b.lookup name = some s0 ∨ (b.lookup name = none ∧ a.lookup name = some s0)) →
            s0.File = "" ∨ ordinaryName (filepathBase s0.File) = true) →
          r.lookup name = mergeSecretsSpec cfg.ProjectPath cfg.Output a b name)) ∧
    (∃ r, handleSecrets { ProjectPath := "/app", Output := "build" }
        (some (AList.singleton "creds" { File := "/secrets/creds.pem" })) none = .ok r ∧
      (r.lookup "creds").map Secret.File = some "/app/build/config/creds.pem" ∧
      r.lookup "creds" =
        mergeSecretsSpec "/app" "build"
          (some (AList.singleton "creds" { File := "/secrets/creds.pem" })) none "creds") := by
  constructor
  · obtain ⟨r, hr, hlook⟩ := handleSecrets_lookup cfg a b
    refine ⟨r, hr, ?_, ?_, ?_⟩
    · intro name
      rw [hlook name]
      cases b.lookup name <;> cases a.lookup name <;> simp
    · intro name s0 hs0
      have hres : r.lookup name = some (rewriteSecret cfg s0) := by
        rw [hlook name]
        rcases hs0 with hb | ⟨hb, ha⟩
        · rw [hb]
        · rw [hb, ha]
          rfl
      obtain ⟨he, hl, hn⟩ := rewriteSecret_fields cfg s0
      refine ⟨_, hres, he, hl, hn, ?_, ?_⟩
      · intro hf
        rw [rewriteSecret_file, if_pos hf]
      · intro hf hord
        rw [rewriteSecret_file, if_neg hf]
        exact filepathJoin_config_ordinary _ _ _ hord
    · intro hclean name hsrc
      rw [hlook name]
      unfold mergeSecretsSpec
      cases hb : b.lookup name with
      | some s0 =>
        simp only
        rw [rewriteSecret_eq_spec cfg s0 hclean (hsrc s0 (Or.inl hb))]
      | none =>
        cases ha : a.lookup name with
        | none => rfl
        | some s0 =>
          simp only [Option.map_some']
          rw [rewriteSecret_eq_spec cfg s0 hclean (hsrc s0 (Or.inr ⟨hb, ha⟩))]
  · exact ⟨_, rfl, by decide, rfl⟩

/-- C9 amended, at the sample configuration and the sample secret `/secrets/creds.pem`:
the staging directory `/app/build/config` is written in clean form, the file name is
ordinary, and the result is what the reference definition gives. -/
theorem handleSecrets_refines_spec_witness :
    stagingPathClean sampleConfig.ProjectPath sampleConfig.Output = true ∧
    ordinaryName (filepathBase sampleSecret.File) = true ∧
    ∃ r, handleSecrets sampleConfig sampleSecrets none = .ok r ∧
      r.lookup "creds" =
        mergeSecretsSpec sampleConfig.ProjectPath sampleConfig.Output sampleSecrets none
          "creds" ∧
      (r.lookup "creds").map Secret.File = some "/app/build/config/creds.pem" := by
  refine ⟨by decide, by decide, ?_⟩
  obtain ⟨⟨r, hr, _, _, hspec⟩, _⟩ := handleSecrets_refines_spec sampleConfig sampleSecrets none
  have hcreds := hspec (by decide) "creds" (by
    intro s0 hs0
    rcases hs0 with hb | ⟨_, ha⟩
    · cases hb
    · have hs : sampleSecret = s0 := Option.some.inj ha
      subst hs
      exact Or.inr (by decide))
  refine ⟨r, hr, hcreds, ?_⟩
  rw [hcreds]
  decide

/-- C10, the inputs on which it fails: with the config folder set to `secrets` the secret
file `/secrets/creds.pem` is still sent to `/app/build/config/creds.pem`, not to the
folder `/app/build/secrets` that the configuration names; and the secret file `certs/..`,
whose base name is not an ordinary file name, is sent to `/app/build`. -/
theorem handleSecrets_ignores_configFolder :
    (∃ r s, handleSecrets sampleConfig sampleSecrets none = .ok r ∧
      r.lookup "creds" = some s ∧
      s.File = "/app/build/config/creds.pem" ∧
      filepathJoin [sampleConfig.ProjectPath, sampleConfig.Output, sampleConfig.ConfigFolder,
        filepathBase sampleSecret.File] = "/app/build/secrets/creds.pem" ∧
      s.File ≠ filepathJoin [sampleConfig.ProjectPath, sampleConfig.Output,
        sampleConfig.ConfigFolder, filepathBase sampleSecret.File]) ∧
    (∃ r s, handleSecrets sampleConfig sampleOddSecrets none = .ok r ∧
      r.lookup "up" = some s ∧ s.File = "/app/build") :=
  ⟨⟨_, _, rfl, rfl, by decide, by decide, by decide⟩, ⟨_, _, rfl, rfl, by decide⟩⟩

/-- C10, amended. The staging directory name is the fixed word `config`: for every
configuration and every secret with a non-empty file path that ends up in the result (b's
entry, or a's when b has none of that name), the rewritten file path is the path joined
from project root, output folder, `config` and the base name of the original path, which
for an ordinary file name is the staging directory (project root, output folder and
`config`, joined) followed by `/` and that name; the configured `configFolder` has no
influence on the result. -/
theorem handleSecrets_staging_folder_fixed (cfg : Options) (a b : GoMap Secret)
    (name : String) (s : Secret)
    (hs : b.lookup name = some s ∨ (b.lookup name = none ∧ a.lookup name = some s))
    (hf : s.File ≠ "") :
    ∃ r s', handleSecrets cfg a b = .ok r ∧ r.lookup name = some s' ∧
      s'.File = filepathJoin [cfg.ProjectPath, cfg.Output, "config", filepathBase s.File] ∧
      (∀ c, handleSecrets { cfg with ConfigFolder := c } a b = handleSecrets cfg a b) ∧
      (ordinaryName (filepathBase s.File) = true →
        s'.File =
          filepathJoin [cfg.ProjectPath, cfg.Output, "config"] ++ "/" ++ filepathBase s.File) := by
  obtain ⟨r, hr, hlook⟩ := handleSecrets_lookup cfg a b
  refine ⟨r, rewriteSecret cfg s, hr, ?_, ?_, fun c => rfl, ?_⟩
  · rw [hlook name]
    rcases hs with hb | ⟨hb, ha⟩
    · rw [hb]
    · rw [hb, ha]
      rfl
  · simp [rewriteSecret, hf]
  · intro hord
    rw [rewriteSecret_file, if_neg hf]
    exact filepathJoin_config_ordinary _ _ _ hord

/-- C10 amended, at the sample configuration whose config folder is `secrets`. -/
theorem handleSecrets_staging_folder_fixed_witness :
    (sampleSecrets.lookup "creds" = some sampleSecret ∨
      (sampleSecrets.lookup "creds" = none ∧
        GoMap.lookup "creds" (none : GoMap Secret) = some sampleSecret)) ∧
    sampleSecret.File ≠ "" ∧
    ∃ r s', handleSecrets sampleConfig none sampleSecrets = .ok r ∧
      r.lookup "creds" = some s' ∧
      s'.File = filepathJoin [sampleConfig.ProjectPath, sampleConfig.Output, "config",
        filepathBase sampleSecret.File] ∧
      (∀ c, handleSecrets { sampleConfig with ConfigFolder := c } none sampleSecrets
          = handleSecrets sampleConfig none sampleSecrets) ∧
      (ordinaryName (filepathBase sampleSecret.File) = true →
        s'.File =
          filepathJoin [sampleConfig.ProjectPath, sampleConfig.Output, "config"] ++ "/" ++
            filepathBase sampleSecret.File) :=
  ⟨Or.inl rfl, by decide,
    handleSecrets_staging_folder_fixed sampleConfig none sampleSecrets "creds" sampleSecret
      (Or.inl rfl) (by decide)⟩

/-- C11, the inputs on which it fails.  With no project document the store is the base
document as loaded, so its secret keeps the path `/secrets/creds.pem`; and with one project
document a secret whose path ends in `..` is sent to `/app/build`, the parent of the
canonical directory `/app/build/config`. -/
theorem mergeAll_secret_outside_canonical_directory :
    (∃ d, (mergeAll sampleConfig sampleHeap { Secrets := sampleSecrets } []).1 = .ok d ∧
      (d.Secrets.lookup "creds").map Secret.File = some "/secrets/creds.pem") ∧
    (∃ d, (mergeAll sampleConfig sampleHeap { Secrets := sampleOddSecrets } [{}]).1 = .ok d ∧
      (d.Secrets.lookup "up").map Secret.File = some "/app/build") ∧
    filepathJoin [sampleConfig.ProjectPath, sampleConfig.Output, "config"]
      = "/app/build/config" :=
  ⟨⟨_, rfl, by decide⟩, ⟨_, rfl, by decide⟩, by decide⟩

/-- C11, amended. With no project document the store is the base document as it was
loaded.  With at least one project document the merge loop succeeds, and every secret of
the store with a non-empty file path stems from the last document, base or project, that
declares its name, where its file path is non-empty as well; if that source path ends in
an ordinary file name, the stored path is the canonical directory (project root, output
folder and `config`, joined) followed by `/` and that name, whatever directory the source
path named. -/
theorem mergeAll_rewrites_secrets (cfg : Options) (h : Heap) (base : DockerCompose)
    (projects : List DockerCompose) (hne : projects ≠ []) :
    mergeAll cfg h base [] = (.ok base, h) ∧
    ∃ d h', mergeAll cfg h base projects = (.ok d, h') ∧
      ∀ name s, d.Secrets.lookup name = some s → s.File ≠ "" →
        ∃ s0, lastDeclared base projects name = some s0 ∧ s0.File ≠ "" ∧
          (ordinaryName (filepathBase s0.File) = true →
            s.File =
              filepathJoin [cfg.ProjectPath, cfg.Output, "config"] ++ "/" ++
                filepathBase s0.File) := by
  refine ⟨rfl, ?_⟩
  obtain ⟨d, h', hd⟩ := mergeAll_ok cfg h base projects
  refine ⟨d, h', hd, ?_⟩
  intro name s hs hfile
  obtain ⟨d2, h2, k, hfold, hk, hres⟩ := mergeAll_secret cfg h base projects name
  rw [hd] at hfold
  have hdd : d = d2 := by injection hfold with h1 _; injection h1
  subst hdd
  rw [hs] at hres
  cases hsrc : lastDeclared base projects name with
  | none => rw [hsrc] at hres; cases hres
  | some s0 =>
    rw [hsrc] at hres
    have hsk : s = (rewriteSecret cfg)^[k] s0 := Option.some.inj hres
    have hk1 : 1 ≤ k := hk hne
    obtain ⟨k2, rfl⟩ : ∃ k2, k = k2 + 1 := ⟨k - 1, (Nat.sub_add_cancel hk1).symm⟩
    have h0 : s0.File ≠ "" := by
      intro h0
      rw [hsk, rewriteSecret_iterate_empty cfg s0 h0] at hfile
      exact hfile h0
    refine ⟨s0, rfl, h0, ?_⟩
    intro hord
    rw [hsk, rewriteSecret_iterate_ordinary cfg s0 h0 hord, rewriteSecret_file, if_neg h0]
    exact filepathJoin_config_ordinary _ _ _ hord

/-- C11 amended, at the sample configuration: a base document with the secret `creds` and
one project document that declares no secret. -/
theorem mergeAll_rewrites_secrets_witness :
    [sampleDocB] ≠ [] ∧
    lastDeclared { Secrets := sampleSecrets } [sampleDocB] "creds" = some sampleSecret ∧
    ordinaryName (filepathBase sampleSecret.File) = true ∧
    (mergeAll sampleConfig sampleHeap { Secrets := sampleSecrets } []
        = (.ok { Secrets := sampleSecrets }, sampleHeap) ∧
      ∃ d h', mergeAll sampleConfig sampleHeap { Secrets := sampleSecrets } [sampleDocB]
          = (.ok d, h') ∧
        ∀ name s, d.Secrets.lookup name = some s → s.File ≠ "" →
          ∃ s0, lastDeclared { Secrets := sampleSecrets } [sampleDocB] name = some s0 ∧
            s0.File ≠ "" ∧
            (ordinaryName (filepathBase s0.File) = true →
              s.File =
                filepathJoin [sampleConfig.ProjectPath, sampleConfig.Output, "config"] ++ "/"
                  ++ filepathBase s0.File)) :=
  ⟨by simp, rfl, by decide,
    mergeAll_rewrites_secrets sampleConfig sampleHeap { Secrets := sampleSecrets } [sampleDocB]
      (by simp)⟩

/-- C23. Secret path rewriting is stable under the fold: for a secret whose non-empty file
path has a base name other than `.`, `..` and the separator, rewriting the already
rewritten secret gives the same path, and so does any number of further rewritings; hence
a secret of the base document that no project document declares has, after the first
combine step and after every later one, the path it received in the first step. -/
theorem rewriteSecret_stable (cfg : Options) (s : Secret) (hfile : s.File ≠ "")
    (h1 : filepathBase s.File ≠ ".") (h2 : filepathBase s.File ≠ "..")
    (h3 : filepathBase s.File ≠ "/") :
    (rewriteSecret cfg (rewriteSecret cfg s)).File = (rewriteSecret cfg s).File ∧
    (∀ k, (rewriteSecret cfg)^[k + 1] s = rewriteSecret cfg s) ∧
    (∀ (h : Heap) (base p : DockerCompose) (rest : List DockerCompose) (name : String),
      base.Secrets.lookup name = some s →
      (∀ q ∈ p :: rest, q.Secrets.lookup name = none) →
      ∃ d h', mergeAll cfg h base (p :: rest) = (.ok d, h') ∧
        d.Secrets.lookup name = some (rewriteSecret cfg s)) := by
  have hidem := rewriteSecret_idem cfg s hfile (filepathBase_ordinary s.File h1 h2 h3)
  refine ⟨by rw [hidem], ?_, ?_⟩
  · intro k
    induction k with
    | zero => rfl
    | succ k ih => rw [Function.iterate_succ_apply', ih, hidem]
  · intro h base p rest name hbase hnone
    obtain ⟨d1, h1', hstep, hlook⟩ := combine_secret_lookup cfg h base p buildMergeOpts name
    rw [hnone p (List.mem_cons_self _ _), hbase] at hlook
    have hstart : mergeAll cfg h base (p :: rest) =
        rest.foldl (mergeStep cfg) (.ok d1, h1') := by
      unfold mergeAll
      rw [List.foldl_cons]
      have hms : mergeStep cfg (combineDockerCompose cfg h (some base) none buildMergeOpts) p
          = (.ok d1, h1') := hstep
      rw [hms]
    rw [hstart]
    exact foldl_mergeStep_keeps_secret cfg s name hidem rest
      (fun q hq => hnone q (List.mem_cons_of_mem _ hq)) d1 h1' hlook

/-- C23, at the sample secret `/secrets/creds.pem` and the sample configuration. -/
theorem rewriteSecret_stable_witness :
    sampleSecret.File ≠ "" ∧ filepathBase sampleSecret.File ≠ "." ∧
    filepathBase sampleSecret.File ≠ ".." ∧ filepathBase sampleSecret.File ≠ "/" ∧
    (rewriteSecret sampleConfig (rewriteSecret sampleConfig sampleSecret)).File
      = (rewriteSecret sampleConfig sampleSecret).File ∧
    (rewriteSecret sampleConfig sampleSecret).File = "/app/build/config/creds.pem" :=
  ⟨by decide, by decide, by decide, by decide,
    (rewriteSecret_stable sampleConfig sampleSecret (by decide) (by decide) (by decide)
      (by decide)).1,
    by decide⟩

/-! ## The service merger `mergeServices` -/

/-- C12. Override rule: image, container name, restart policy, user and working directory
of the result are b's value when that is not empty and a's value otherwise; build spec,
command and entrypoint of the result are b's value as a whole when b has one (non-nil)
and a's value otherwise. -/
theorem mergeServices_override_rule (h : Heap) (a b : Service) :
    (mergeServices h a b).1.Image = (if b.Image ≠ "" then b.Image else a.Image) ∧
    (mergeServices h a b).1.ContainerName =
      (if b.ContainerName ≠ "" then b.ContainerName else a.ContainerName) ∧
    (mergeServices h a b).1.Restart = (if b.Restart ≠ "" then b.Restart else a.Restart) ∧
    (mergeServices h a b).1.User = (if b.User ≠ "" then b.User else a.User) ∧
    (mergeServices h a b).1.WorkingDir =
      (if b.WorkingDir ≠ "" then b.WorkingDir else a.WorkingDir) ∧
    (mergeServices h a b).1.Build = (if b.Build.isSome then b.Build else a.Build) ∧
    (mergeServices h a b).1.Command =
      (if b.Command.isNil = false then b.Command else a.Command) ∧
    (mergeServices h a b).1.Entrypoint =
      (if b.Entrypoint.isNil = false then b.Entrypoint else a.Entrypoint) := by
  refine ⟨?_, ?_, ?_, ?_, ?_, ?_, ?_, ?_⟩
  · simp only [mergeServices, apply_ite Service.Image, ite_self]
  · simp only [mergeServices, apply_ite Service.ContainerName, ite_self]
  · simp only [mergeServices, apply_ite Service.Restart, ite_self]
  · simp only [mergeServices, apply_ite Service.User, ite_self]
  · simp only [mergeServices, apply_ite Service.WorkingDir, ite_self]
  · simp only [mergeServices, apply_ite Service.Build, ite_self]
  · simp only [mergeServices, apply_ite Service.Command, ite_self]
    cases b.Command.isNil <;> simp
  · simp only [mergeServices, apply_ite Service.Entrypoint, ite_self]
    cases b.Entrypoint.isNil <;> simp

/-- C13. Environment and label maps are unioned key by key: for services whose maps are
their own, the result's environment (respectively labels) holds under every key b's value
when b's map has the key, otherwise a's value when a's map has it, and nothing
otherwise.  For example `{X: "1", Y: "2"}` and `{Y: "3", Z: "4"}` give
`{X: "1", Y: "3", Z: "4"}`. -/
theorem mergeServices_unions_maps (h : Heap) (a b : Service)
    (hown : ownMaps h a b = true) (k : String) :
    (((mergeServices h a b).2.deref (mergeServices h a b).1.Environment).lookup k =
        match (h.deref b.Environment).lookup k with
        | some v => some v
        | none => (h.deref a.Environment).lookup k) ∧
    (((mergeServices h a b).2.deref (mergeServices h a b).1.Labels).lookup k =
        match (h.deref b.Labels).lookup k with
        | some v => some v
        | none => (h.deref a.Labels).lookup k) ∧
    (((mergeServices sampleEnvHeap sampleEnvA sampleEnvB).2.deref
          (mergeServices sampleEnvHeap sampleEnvA sampleEnvB).1.Environment).lookup "X"
        = some "1" ∧
      ((mergeServices sampleEnvHeap sampleEnvA sampleEnvB).2.deref
          (mergeServices sampleEnvHeap sampleEnvA sampleEnvB).1.Environment).lookup "Y"
        = some "3" ∧
      ((mergeServices sampleEnvHeap sampleEnvA sampleEnvB).2.deref
          (mergeServices sampleEnvHeap sampleEnvA sampleEnvB).1.Environment).lookup "Z"
        = some "4" ∧
      ((mergeServices sampleEnvHeap sampleEnvA sampleEnvB).2.deref
          (mergeServices sampleEnvHeap sampleEnvA sampleEnvB).1.Environment).keys.length
        = 3) := by
  simp only [ownMaps, Bool.and_eq_true] at hown
  obtain ⟨⟨⟨⟨⟨hvae, hval⟩, hvbe⟩, hvbl⟩, haal⟩, habl⟩ := hown
  have hle := mergeStringMap_next_le h a.Environment b.Environment
  refine ⟨?_, ?_, ?_⟩
  · rw [mergeServices_heap, mergeServices_environment_ref]
    have hframe :
        (mergeStringMap (mergeStringMap h a.Environment b.Environment).2 a.Labels b.Labels).2.deref
            (mergeStringMap h a.Environment b.Environment).1 =
          (mergeStringMap h a.Environment b.Environment).2.deref
            (mergeStringMap h a.Environment b.Environment).1 := by
      rcases mergeStringMap_ref h a.Environment b.Environment with hr | ⟨hnone, hr, hnext⟩
      · rw [hr]
        apply mergeStringMap_deref_frame
        · exact valid_of_next_le h _ _ hle hvae
        · cases hae : a.Environment with
          | none => cases a.Labels <;> rfl
          | some p =>
            cases hal : a.Labels with
            | none => rfl
            | some q =>
              rw [hae, hal] at haal
              simp only [apart, decide_eq_true_eq] at haal ⊢
              exact fun hqp => haal hqp.symm
      · rw [hr]
        apply mergeStringMap_deref_frame
        · simp [Heap.valid, hnext]
        · cases hal : a.Labels with
          | none => rfl
          | some q =>
            rw [hal] at hval
            have hq : q < h.next := by simpa [Heap.valid] using hval
            simp only [apart, decide_eq_true_eq]
            exact Nat.ne_of_lt hq
    rw [hframe]
    exact mergeStringMap_lookup h a.Environment b.Environment hvbe k
  · rw [mergeServices_heap, mergeServices_labels_ref]
    rw [mergeStringMap_lookup _ a.Labels b.Labels (valid_of_next_le h _ _ hle hvbl) k]
    rw [mergeStringMap_deref_frame h a.Environment b.Environment b.Labels hvbl habl,
      mergeStringMap_deref_frame h a.Environment b.Environment a.Labels hval haal]
  · refine ⟨?_, ?_, ?_, ?_⟩ <;> decide

/-- C13, at the sample services and the key `Y`, which both environments hold. -/
theorem mergeServices_unions_maps_witness :
    ownMaps sampleEnvHeap sampleEnvA sampleEnvB = true ∧
    ((mergeServices sampleEnvHeap sampleEnvA sampleEnvB).2.deref
        (mergeServices sampleEnvHeap sampleEnvA sampleEnvB).1.Environment).lookup "Y"
      = (match (sampleEnvHeap.deref sampleEnvB.Environment).lookup "Y" with
         | some v => some v
         | none => (sampleEnvHeap.deref sampleEnvA.Environment).lookup "Y") :=
  ⟨by decide,
    (mergeServices_unions_maps sampleEnvHeap sampleEnvA sampleEnvB (by decide) "Y").1⟩

/-- C14. Ports and volumes are concatenated without de-duplication: the result's ports are
a's ports followed by b's ports and its volumes a's volumes followed by b's volumes, so
each length is the sum of the two lengths; for example `["80:80"]` and `["80:80"]` give
`["80:80", "80:80"]`. -/
theorem mergeServices_concatenates_sequences (h : Heap) (a b : Service) :
    (mergeServices h a b).1.Ports = a.Ports ++ b.Ports ∧
    (mergeServices h a b).1.Volumes = a.Volumes ++ b.Volumes ∧
    (mergeServices h a b).1.Ports.length = a.Ports.length + b.Ports.length ∧
    (mergeServices h a b).1.Volumes.length = a.Volumes.length + b.Volumes.length ∧
    (mergeServices h { Ports := ["80:80"] } { Ports := ["80:80"] }).1.Ports
      = ["80:80", "80:80"] := by
  have hp := mergeServices_ports h a b
  have hv := mergeServices_volumes h a b
  refine ⟨hp, hv, ?_, ?_, ?_⟩
  · rw [hp, List.length_append]
  · rw [hv, List.length_append]
  · simp only [mergeServices, apply_ite Service.Ports, ite_self]
    rfl

/-- C15. The dependency list is replaced wholesale: the result's `depends_on` is b's value
exactly, whatever a's was; for example `["db"]` and `["cache"]` give `["cache"]`. -/
theorem mergeServices_replaces_dependsOn (h : Heap) (a b : Service) :
    (mergeServices h a b).1.DependsOn = b.DependsOn ∧
    (mergeServices h { DependsOn := .seq [.str "db"] }
        { DependsOn := .seq [.str "cache"] }).1.DependsOn = .seq [.str "cache"] := by
  constructor
  · simp only [mergeServices, apply_ite Service.DependsOn, ite_self]
  · simp only [mergeServices, apply_ite Service.DependsOn, ite_self]

/-- C16, the input on which it fails: a service with every field populated, merged with
itself, comes back with its port and its volume listed twice, so it is not the service
that went in. -/
theorem mergeServices_self_doubles_sequences :
    (mergeServices sampleEnvHeap sampleFullService sampleFullService).1.Ports
      = ["80:80", "80:80"] ∧
    (mergeServices sampleEnvHeap sampleFullService sampleFullService).1.Volumes
      = ["data:/data", "data:/data"] ∧
    (mergeServices sampleEnvHeap sampleFullService sampleFullService).1 ≠ sampleFullService := by
  have hp := mergeServices_ports sampleEnvHeap sampleFullService sampleFullService
  have hv := mergeServices_volumes sampleEnvHeap sampleFullService sampleFullService
  refine ⟨hp, hv, ?_⟩
  intro heq
  rw [heq] at hp
  exact absurd hp (by decide)

/-- C16, amended. Merging a service with itself changes nothing but the ports and the
volumes, each of which becomes the sequence followed by itself; the environment and label
maps keep their references and every map keeps its contents.  Hence the merge gives the
service back exactly when its ports and volumes are empty. -/
theorem mergeServices_self (h : Heap) (a : Service) :
    (mergeServices h a a).1 =
      { a with Ports := a.Ports ++ a.Ports, Volumes := a.Volumes ++ a.Volumes } ∧
    (∀ q k, ((mergeServices h a a).2.cells q).lookup k = (h.cells q).lookup k) ∧
    ((mergeServices h a a).1 = a ↔ a.Ports = [] ∧ a.Volumes = []) := by
  have hstruct : (mergeServices h a a).1 =
      { a with Ports := a.Ports ++ a.Ports, Volumes := a.Volumes ++ a.Volumes } := by
    have he := (mergeStringMap_self h a.Environment).1
    have hl := (mergeStringMap_self (mergeStringMap h a.Environment a.Environment).2 a.Labels).1
    cases a with
    | mk Image Environment Build ContainerName Command Entrypoint EnvFile Ports Expose Volumes VolumesFrom Networks DependsOn Links ExternalLinks Restart User WorkingDir Hostname DomainName MacAddress Privileged ReadOnly StdinOpen Tty CPU CPUs CPUSet Memory MemSwap ShmSize PidMode IPC SecurityOpt StopSignal StopGracePeriod Ulimits Devices Labels LogDriver LogOpt ExtraHosts DNS DNSSearch DNSOpt TmpFS Secrets Configs Deploy HealthCheck =>
      simp only at he hl
      simp only [mergeServices, ite_self, he, hl]
      cases Ports <;> cases Volumes <;> simp
  refine ⟨hstruct, ?_, ?_⟩
  · intro q k
    rw [mergeServices_heap]
    rw [(mergeStringMap_self _ a.Labels).2 q k, (mergeStringMap_self h a.Environment).2 q k]
  · constructor
    · intro heq
      have hp := mergeServices_ports h a a
      have hv := mergeServices_volumes h a a
      rw [heq] at hp hv
      exact ⟨List.append_left_eq_self.1 hp.symm, List.append_left_eq_self.1 hv.symm⟩
    · rintro ⟨hp, hv⟩
      rw [hstruct]
      cases a
      simp only at hp hv
      subst hp hv
      rfl

/-- C22. Frame of `mergeServices`: every field of the result other than image, build,
container name, command, entrypoint, environment, labels, ports, volumes, depends_on,
restart, user and working directory is a's value, whatever b holds there; b's env_file,
expose, volumes_from, networks, links, hostname, secrets, configs, deploy, healthcheck and
the other such fields are dropped. -/
theorem mergeServices_frame (h : Heap) (a b : Service) :
    (mergeServices h a b).1.EnvFile = a.EnvFile ∧
    (mergeServices h a b).1.Expose = a.Expose ∧
    (mergeServices h a b).1.VolumesFrom = a.VolumesFrom ∧
    (mergeServices h a b).1.Networks = a.Networks ∧
    (mergeServices h a b).1.Links = a.Links ∧
    (mergeServices h a b).1.ExternalLinks = a.ExternalLinks ∧
    (mergeServices h a b).1.Hostname = a.Hostname ∧
    (mergeServices h a b).1.DomainName = a.DomainName ∧
    (mergeServices h a b).1.MacAddress = a.MacAddress ∧
    (mergeServices h a b).1.Privileged = a.Privileged ∧
    (mergeServices h a b).1.ReadOnly = a.ReadOnly ∧
    (mergeServices h a b).1.StdinOpen = a.StdinOpen ∧
    (mergeServices h a b).1.Tty = a.Tty ∧
    (mergeServices h a b).1.CPU = a.CPU ∧
    (mergeServices h a b).1.CPUs = a.CPUs ∧
    (mergeServices h a b).1.CPUSet = a.CPUSet ∧
    (mergeServices h a b).1.Memory = a.Memory ∧
    (mergeServices h a b).1.MemSwap = a.MemSwap ∧
    (mergeServices h a b).1.ShmSize = a.ShmSize ∧
    (mergeServices h a b).1.PidMode = a.PidMode ∧
    (mergeServices h a b).1.IPC = a.IPC ∧
    (mergeServices h a b).1.SecurityOpt = a.SecurityOpt ∧
    (mergeServices h a b).1.StopSignal = a.StopSignal ∧
    (mergeServices h a b).1.StopGracePeriod = a.StopGracePeriod ∧
    (mergeServices h a b).1.Ulimits = a.Ulimits ∧
    (mergeServices h a b).1.Devices = a.Devices ∧
    (mergeServices h a b).1.LogDriver = a.LogDriver ∧
    (mergeServices h a b).1.LogOpt = a.LogOpt ∧
    (mergeServices h a b).1.ExtraHosts = a.ExtraHosts ∧
    (mergeServices h a b).1.DNS = a.DNS ∧
    (mergeServices h a b).1.DNSSearch = a.DNSSearch ∧
    (mergeServices h a b).1.DNSOpt = a.DNSOpt ∧
    (mergeServices h a b).1.TmpFS = a.TmpFS ∧
    (mergeServices h a b).1.Secrets = a.Secrets ∧
    (mergeServices h a b).1.Configs = a.Configs ∧
    (mergeServices h a b).1.Deploy = a.Deploy ∧
    (mergeServices h a b).1.HealthCheck = a.HealthCheck := by
  refine ⟨?_, ?_, ?_, ?_, ?_, ?_, ?_, ?_, ?_, ?_, ?_, ?_, ?_, ?_, ?_, ?_, ?_, ?_, ?_, ?_, ?_, ?_, ?_, ?_, ?_, ?_, ?_, ?_, ?_, ?_, ?_, ?_, ?_, ?_, ?_, ?_, ?_⟩
  · simp only [mergeServices, apply_ite Service.EnvFile, ite_self]
  · simp only [mergeServices, apply_ite Service.Expose, ite_self]
  · simp only [mergeServices, apply_ite Service.VolumesFrom, ite_self]
  · simp only [mergeServices, apply_ite Service.Networks, ite_self]
  · simp only [mergeServices, apply_ite Service.Links, ite_self]
  · simp only [mergeServices, apply_ite Service.ExternalLinks, ite_self]
  · simp only [mergeServices, apply_ite Service.Hostname, ite_self]
  · simp only [mergeServices, apply_ite Service.DomainName, ite_self]
  · simp only [mergeServices, apply_ite Service.MacAddress, ite_self]
  · simp only [mergeServices, apply_ite Service.Privileged, ite_self]
  · simp only [mergeServices, apply_ite Service.ReadOnly, ite_self]
  · simp only [mergeServices, apply_ite Service.StdinOpen, ite_self]
  · simp only [mergeServices, apply_ite Service.Tty, ite_self]
  · simp only [mergeServices, apply_ite Service.CPU, ite_self]
  · simp only [mergeServices, apply_ite Service.CPUs, ite_self]
  · simp only [mergeServices, apply_ite Service.CPUSet, ite_self]
  · simp only [mergeServices, apply_ite Service.Memory, ite_self]
  · simp only [mergeServices, apply_ite Service.MemSwap, ite_self]
  · simp only [mergeServices, apply_ite Service.ShmSize, ite_self]
  · simp only [mergeServices, apply_ite Service.PidMode, ite_self]
  · simp only [mergeServices, apply_ite Service.IPC, ite_self]
  · simp only [mergeServices, apply_ite Service.SecurityOpt, ite_self]
  · simp only [mergeServices, apply_ite Service.StopSignal, ite_self]
  · simp only [mergeServices, apply_ite Service.StopGracePeriod, ite_self]
  · simp only [mergeServices, apply_ite Service.Ulimits, ite_self]
  · simp only [mergeServices, apply_ite Service.Devices, ite_self]
  · simp only [mergeServices, apply_ite Service.LogDriver, ite_self]
  · simp only [mergeServices, apply_ite Service.LogOpt, ite_self]
  · simp only [mergeServices, apply_ite Service.ExtraHosts, ite_self]
  · simp only [mergeServices, apply_ite Service.DNS, ite_self]
  · simp only [mergeServices, apply_ite Service.DNSSearch, ite_self]
  · simp only [mergeServices, apply_ite Service.DNSOpt, ite_self]
  · simp only [mergeServices, apply_ite Service.TmpFS, ite_self]
  · simp only [mergeServices, apply_ite Service.Secrets, ite_self]
  · simp only [mergeServices, apply_ite Service.Configs, ite_self]
  · simp only [mergeServices, apply_ite Service.Deploy, ite_self]
  · simp only [mergeServices, apply_ite Service.HealthCheck, ite_self]

/-! ## Build-context injection `CheckBuildContext` -/

/-- C17. `CheckBuildContext` fails exactly when the service has no build spec and then
leaves the service as it was; otherwise it succeeds and the service differs from the one
given only in the context of its build spec, which is project root, project folder and
service name separated by `/`, whatever it was before.  For example project root `/app`,
project folder `services` and service `api` give `/app/services/api`. -/
theorem checkBuildContext_contract (cfg : Options) (service : Service) (serviceName : String) :
    ((CheckBuildContext cfg service serviceName).1 ≠ none ↔ service.Build = none) ∧
    (service.Build = none → (CheckBuildContext cfg service serviceName).2 = service) ∧
    (∀ build, service.Build = some build →
      CheckBuildContext cfg service serviceName =
        (none,
          { service with
            Build := some
              { build with
                Context :=
                  cfg.ProjectPath ++ "/" ++ cfg.ProjectFolder ++ "/" ++ serviceName } })) ∧
    (CheckBuildContext { ProjectPath := "/app", ProjectFolder := "services" }
        { Image := "app", Build := some { Context := ".", Dockerfile := "Dockerfile" } }
        "api").2.Build
      = some { Context := "/app/services/api", Dockerfile := "Dockerfile" } := by
  refine ⟨?_, ?_, ?_, ?_⟩
  · unfold CheckBuildContext
    cases service.Build <;> simp
  · intro hb
    unfold CheckBuildContext
    rw [hb]
  · intro build hb
    unfold CheckBuildContext
    rw [hb]
  · rfl

/-! ## The pipeline `Build` and the entry point `Execute` -/

/-- C18, the input on which it fails: a request for `merge` with an empty project path.
`Merge` fails with "project path not set", and `Execute` still answers `Success` with no
error. -/
theorem execute_reports_success_for_failed_merge :
    sampleCollaborators.jsonUnmarshal sampleMergeBody = .ok sampleMergeRequest ∧
    (Merge sampleCollaborators sampleMergeRequest sampleWorld).1
      = ("", some "project path not set") ∧
    (Execute sampleCollaborators sampleWorld sampleMergeBody).1 = ("Success", none) := by
  have hreq : sampleCollaborators.jsonUnmarshal sampleMergeBody = .ok sampleMergeRequest := by
    simp [sampleCollaborators]
  exact ⟨hreq, rfl, execute_merge_result _ _ _ _ hreq rfl⟩

/-- C19. For a request whose action is anything but `merge`, the empty string included,
`Execute` returns the error "<action> action not found" and leaves the world as it was:
no file is read or written and no map is touched, so the merge pipeline has not run. -/
theorem execute_unknown_action (ext : Collaborators) (w : World) (body : String)
    (request : ExecutionRequestBody) (hreq : ext.jsonUnmarshal body = .ok request)
    (hact : request.Options.Action ≠ "merge") :
    Execute ext w body =
      (("", some (request.Options.Action ++ " action not found")), w) := by
  unfold Execute
  rw [hreq]
  simp [hact]

/-- C19, at the sample request for the action `deploy`. -/
theorem execute_unknown_action_witness :
    sampleCollaborators.jsonUnmarshal sampleDeployBody = .ok sampleDeployRequest ∧
    sampleDeployRequest.Options.Action ≠ "merge" ∧
    Execute sampleCollaborators sampleWorld sampleDeployBody =
      (("", some "deploy action not found"), sampleWorld) := by
  have hreq : sampleCollaborators.jsonUnmarshal sampleDeployBody = .ok sampleDeployRequest := by
    simp [sampleCollaborators, sampleDeployBody, sampleMergeBody]
  exact ⟨hreq, by decide, execute_unknown_action _ _ _ _ hreq (by decide)⟩

/-- C20. `Build` validates the required configuration before any I/O: when the project
root path or the output path is empty it returns an error ("project path not set", or
"output path not set" when only the output path is empty) and leaves the compiler and the
world as they were, so no file has been read or written, whatever the other options are. -/
theorem build_validates_configuration (ext : Collaborators) (dc : DockerComposeCompiler)
    (w : World) (hcfg : dc.Config.ProjectPath = "" ∨ dc.Config.Output = "") :
    Build ext dc w =
      (some (if dc.Config.ProjectPath = "" then "project path not set"
             else "output path not set"), dc, w) := by
  unfold Build
  by_cases hp : dc.Config.ProjectPath = ""
  · simp [hp]
  · have ho : dc.Config.Output = "" := hcfg.resolve_left hp
    simp [hp, ho]

/-- C20, at a configuration with project root `/app` and no output path. -/
theorem build_validates_configuration_witness :
    (({ Config := { ProjectPath := "/app", Output := "" } } :
          DockerComposeCompiler).Config.ProjectPath = "" ∨
      ({ Config := { ProjectPath := "/app", Output := "" } } :
          DockerComposeCompiler).Config.Output = "") ∧
    Build sampleCollaborators { Config := { ProjectPath := "/app", Output := "" } } sampleWorld =
      (some "output path not set", { Config := { ProjectPath := "/app", Output := "" } },
        sampleWorld) :=
  ⟨Or.inr rfl,
    build_validates_configuration sampleCollaborators
      { Config := { ProjectPath := "/app", Output := "" } } sampleWorld (Or.inr rfl)⟩

/-! ## Build-context injection in `GetServices` -/

/-- C21. Build-context injection in the pipeline: for a configured project `p` whose
document loads, with `n` the last `/`-separated segment of `p`, `GetServices` succeeds and
hands on, after the documents of the projects before `p`, a document that has the version,
networks, volumes, secrets and configs of the loaded one and the same service under every
name other than `n`.  If the loaded document has a service `n` with a build spec, that
service differs only in its build context, which is project root, project folder and `n`
separated by `/`; if service `n` has no build spec every service is as loaded, and if
there is no service `n` the document is the loaded one. -/
theorem getServices_injects_build_context (ext : Collaborators) (cfg : Options) (w : World)
    (pre post : List String) (p : String) (doc : DockerCompose) (w1 : World)
    (hproj : cfg.Projects = pre ++ p :: post)
    (hread : ReadFile ext (pre.foldl (getServicesStep ext cfg) ([], w)).2
      (filepathJoin [cfg.ProjectPath, cfg.ProjectFolder, p, "docker-compose.yml"])
        = (.ok doc, w1)) :
    ∃ doc2 rest w2,
      GetServices ext cfg w =
        (.ok ((pre.foldl (getServicesStep ext cfg) ([], w)).1 ++ doc2 :: rest), w2) ∧
      doc2.Version = doc.Version ∧ doc2.Networks = doc.Networks ∧
      doc2.Volumes = doc.Volumes ∧ doc2.Secrets = doc.Secrets ∧ doc2.Configs = doc.Configs ∧
      (∀ k, k ≠ (stringsSplitSlash p).getLastD "" →
        doc2.Services.lookup k = doc.Services.lookup k) ∧
      (∀ svc build, doc.Services.lookup ((stringsSplitSlash p).getLastD "") = some svc →
        svc.Build = some build →
        doc2.Services.lookup ((stringsSplitSlash p).getLastD "") =
          some { svc with
                 Build := some
                   { build with
                     Context := cfg.ProjectPath ++ "/" ++ cfg.ProjectFolder ++ "/" ++
                       (stringsSplitSlash p).getLastD "" } }) ∧
      (∀ svc, doc.Services.lookup ((stringsSplitSlash p).getLastD "") = some svc →
        svc.Build = none → ∀ k, doc2.Services.lookup k = doc.Services.lookup k) ∧
      (doc.Services.lookup ((stringsSplitSlash p).getLastD "") = none → doc2 = doc) := by
  obtain ⟨doc2, hstep, hprops⟩ :=
    getServicesStep_loaded ext cfg (pre.foldl (getServicesStep ext cfg) ([], w)) p doc w1 hread
  obtain ⟨rest, hrest⟩ :=
    foldl_getServicesStep_extends ext cfg post
      ((pre.foldl (getServicesStep ext cfg) ([], w)).1 ++ [doc2], w1)
  refine ⟨doc2, rest, (post.foldl (getServicesStep ext cfg)
    ((pre.foldl (getServicesStep ext cfg) ([], w)).1 ++ [doc2], w1)).2, ?_, hprops⟩
  unfold GetServices
  simp only [hproj, List.foldl_append, List.foldl_cons, hstep]
  rw [hrest]
  simp

/-- C21, at the sample project `api`, whose document declares the service `api` with a
build spec: the document handed on has the build context `/app/services/api`. -/
theorem getServices_injects_build_context_witness :
    sampleProjectConfig.Projects = [] ++ "api" :: [] ∧
    ReadFile sampleProjectCollaborators sampleWorld
        (filepathJoin [sampleProjectConfig.ProjectPath, sampleProjectConfig.ProjectFolder, "api",
          "docker-compose.yml"])
      = (.ok sampleProjectDoc,
          { heap := sampleHeap, calls := [.read "/app/services/api/docker-compose.yml"] }) ∧
    ∃ doc2 rest w2,
      GetServices sampleProjectCollaborators sampleProjectConfig sampleWorld
        = (.ok (doc2 :: rest), w2) ∧
      doc2.Services.lookup "api" =
        some { Image := "app",
               Build := some { Context := "/app/services/api", Dockerfile := "Dockerfile" } } := by
  refine ⟨rfl, rfl, ?_⟩
  obtain ⟨doc2, rest, w2, hget, _, _, _, _, _, _, hbuild, _, _⟩ :=
    getServices_injects_build_context sampleProjectCollaborators sampleProjectConfig
      sampleWorld [] [] "api" sampleProjectDoc
      { heap := sampleHeap, calls := [.read "/app/services/api/docker-compose.yml"] } rfl rfl
  exact ⟨doc2, rest, w2, hget,
    hbuild { Image := "app", Build := some { Dockerfile := "Dockerfile" } }
      { Dockerfile := "Dockerfile" } rfl rfl⟩

end ComposeMerge
